import Mathlib

/-!
# Verification of the protocompile lexer (`src/parser/lexer.go`)

A shallow embedding of the lexer of this repository.  The input is a list of
bytes (`List Nat`); machine integers are modelled as `Nat`/`Int` with explicit
bounds where overflow matters.  Functions keep the names of the Go source
where Lean allows it.  External collaborators (the Go standard library's
`strconv` and `unicode/utf8`, and the `ast.FileInfo` type, which is not under
`src/`) are modelled from their documented behaviour / the specification, as
noted in the doc comments.
-/

set_option maxRecDepth 100000
set_option exponentiation.threshold 20000
set_option linter.unreachableTactic false
set_option linter.unnecessarySeqFocus false
set_option linter.unusedTactic false

/-! ## Bytes and UTF-8 (model of Go `unicode/utf8`) -/

/-- Is `b` a UTF-8 continuation byte (`0x80`–`0xBF`)? -/
def contByte (b : Nat) : Bool := 128 ≤ b && b ≤ 191

/-- Modelled from Go stdlib `utf8.DecodeRune` as consumed by the lexer's
`readRune` (`lexer.go` 39–53): decode the bytes of `data` starting at `pos`
into a codepoint and its byte size.  `none` corresponds to a decode equal to
`utf8.RuneError`, the only condition `readRune` checks: an invalid encoding
(stray continuation byte, overlong form, surrogate, out of range, truncated
sequence) or a literal well-formed U+FFFD (`EF BF BD`), which decodes to
`utf8.RuneError` itself and is therefore rejected by `readRune` too. -/
def decodeRune (data : List Nat) (pos : Nat) : Option (Nat × Nat) :=
  match data.get? pos with
  | none => none
  | some b0 =>
    if b0 < 128 then some (b0, 1)
    else if 194 ≤ b0 && b0 ≤ 223 then
      match data.get? (pos + 1) with
      | some b1 =>
        if contByte b1 then some ((b0 - 192) * 64 + (b1 - 128), 2) else none
      | none => none
    else if 224 ≤ b0 && b0 ≤ 239 then
      match data.get? (pos + 1), data.get? (pos + 2) with
      | some b1, some b2 =>
        let lo := if b0 = 224 then 160 else 128
        let hi := if b0 = 237 then 159 else 191
        if lo ≤ b1 && b1 ≤ hi && contByte b2 then
          if (b0 - 224) * 4096 + (b1 - 128) * 64 + (b2 - 128) = 65533 then none
          else some ((b0 - 224) * 4096 + (b1 - 128) * 64 + (b2 - 128), 3)
        else none
      | _, _ => none
    else if 240 ≤ b0 && b0 ≤ 244 then
      match data.get? (pos + 1), data.get? (pos + 2), data.get? (pos + 3) with
      | some b1, some b2, some b3 =>
        let lo := if b0 = 240 then 144 else 128
        let hi := if b0 = 244 then 143 else 191
        if lo ≤ b1 && b1 ≤ hi && contByte b2 && contByte b3 then
          some ((b0 - 240) * 262144 + (b1 - 128) * 4096 + (b2 - 128) * 64 + (b3 - 128), 4)
        else none
      | _, _, _ => none
    else none

/-- The UTF-8 encoding of U+FFFD (`utf8.RuneError`). -/
def runeErrorBytes : List Nat := [239, 191, 189]

/-- Modelled from Go stdlib `utf8.EncodeRune` (as used by
`bytes.Buffer.WriteRune`): surrogates and out-of-range codepoints are encoded
as U+FFFD. -/
def encodeRune (r : Nat) : List Nat :=
  if r < 128 then [r]
  else if r < 2048 then [192 + r / 64, 128 + r % 64]
  else if 55296 ≤ r && r ≤ 57343 then runeErrorBytes
  else if r < 65536 then [224 + r / 4096, 128 + (r / 64) % 64, 128 + r % 64]
  else if r ≤ 1114111 then
    [240 + r / 262144, 128 + (r / 4096) % 64, 128 + (r / 64) % 64, 128 + r % 64]
  else runeErrorBytes

/-- `WriteRune` on a Go `rune` (signed 32-bit): negative values encode as
U+FFFD. -/
def encodeRuneI (i : Int) : List Nat :=
  if i < 0 then runeErrorBytes else encodeRune i.toNat

/-- Bytes of a list rendered as a `String` (all call sites are ASCII). -/
def bytesToString (bs : List Nat) : String := ⟨bs.map (Char.ofNat ·)⟩

/-! ## Go `strconv` integer parsing (external collaborator, modelled) -/

/-- The two error kinds of Go `strconv.NumError` relevant here. -/
inductive GoErr where
  | errRange
  | errSyn
deriving DecidableEq, Repr

/-- Go digit value of a byte: `0`–`9`, `a`–`z`, `A`–`Z`. -/
def digitVal (c : Nat) : Option Nat :=
  if 48 ≤ c && c ≤ 57 then some (c - 48)
  else if 97 ≤ c && c ≤ 122 then some (c - 97 + 10)
  else if 65 ≤ c && c ≤ 90 then some (c - 65 + 10)
  else none

/-- The digit-accumulation loop of Go `strconv.ParseUint` for an explicit
base (2–36) and a given `maxVal = 2^bitSize - 1`.  With an explicit base,
underscores are not permitted and hit the default (syntax-error) case. -/
def parseUintLoop (base maxVal cutoff : Nat) (s : List Nat) (n : Nat) :
    Nat × Option GoErr :=
  match s with
  | [] => (n, none)
  | c :: rest =>
    match digitVal c with
    | none => (0, some .errSyn)
    | some d =>
      if base ≤ d then (0, some .errSyn)
      else if cutoff ≤ n then (maxVal, some .errRange)
      else
        let n1 := n * base + d
        if maxVal < n1 then (maxVal, some .errRange)
        else parseUintLoop base maxVal cutoff rest n1

/-- Modelled from Go stdlib `strconv.ParseUint(s, base, 64)` with an explicit
base: no sign, no underscores, value clamped to `2^64 - 1` on range error. -/
def goParseUint64 (s : List Nat) (base : Nat) : Nat × Option GoErr :=
  if s = [] then (0, some .errSyn)
  else parseUintLoop base (2 ^ 64 - 1) ((2 ^ 64 - 1) / base + 1) s 0

/-- The unsigned part of Go `strconv.ParseInt(·, base, 32)` after sign
stripping: `ParseUint` with bit size 32 (a syntax error aborts; a range
error falls through), then the signed cutoff at `2^31`. -/
def goParseInt32Core (neg : Bool) (digits : List Nat) (base : Nat) :
    Int × Option GoErr :=
  if digits = [] then (0, some .errSyn)
  else
    let maxV : Nat := 2 ^ 32 - 1
    let r := parseUintLoop base maxV (maxV / base + 1) digits 0
    match r.2 with
    | some .errSyn => (0, some .errSyn)
    | e =>
      let cutoff : Nat := 2 ^ 31
      if !neg && cutoff ≤ r.1 then ((cutoff - 1 : Nat), some .errRange)
      else if neg && cutoff < r.1 then (-(cutoff : Int), some .errRange)
      else ((if neg then -(r.1 : Int) else (r.1 : Int)), e)

/-- Modelled from Go stdlib `strconv.ParseInt(s, base, 32)`: an optional
leading sign, then the unsigned core. -/
def goParseInt32 (s : List Nat) (base : Nat) : Int × Option GoErr :=
  match s with
  | [] => (0, some .errSyn)
  | c :: rest =>
    if c = 43 then goParseInt32Core false rest base
    else if c = 45 then goParseInt32Core true rest base
    else goParseInt32Core false (c :: rest) base

/-! ## Go `strconv.ParseFloat` (external collaborator, modelled) -/

/-- The result of Go `strconv.ParseFloat(·, 64)`.  A finite result carries the
exact decimal value `(-1)^neg * mant * 10^exp` of the lexeme; the rounding of
in-range finite values to binary64 is elided because no claim inspects it.
Overflow to infinity and complete underflow to zero are classified exactly at
the IEEE-754 round-to-nearest-even boundaries. -/
inductive GoFloat where
  | finite (neg : Bool) (mant : Nat) (exp : Int)
  | inf (neg : Bool)
  | nan
deriving DecidableEq, Repr

/-- Is the byte an ASCII decimal digit? -/
def isDigitB (c : Nat) : Bool := 48 ≤ c && c ≤ 57

/-- Decimal digits to a natural number. -/
def digitsToNat (ds : List Nat) : Nat := ds.foldl (fun a c => a * 10 + (c - 48)) 0

/-- ASCII lower-casing of a byte. -/
def lowerByte (c : Nat) : Nat := if 65 ≤ c && c ≤ 90 then c + 32 else c

/-- The special-value check of Go `strconv.ParseFloat` after sign
stripping: `inf`, `infinity`, `nan`, case-insensitively. -/
def goParseFloatSpecialCore (neg : Bool) (s1 : List Nat) : Option GoFloat :=
  let l := s1.map lowerByte
  if l = [105, 110, 102] || l = [105, 110, 102, 105, 110, 105, 116, 121] then
    some (.inf neg)
  else if l = [110, 97, 110] then some GoFloat.nan
  else none

/-- Modelled from Go `strconv`: the special values `inf`, `infinity`, `nan`
(case-insensitive, optional sign) accepted by `ParseFloat`. -/
def goParseFloatSpecial (s : List Nat) : Option GoFloat :=
  match s with
  | [] => none
  | c :: rest =>
    if c = 43 then goParseFloatSpecialCore false rest
    else if c = 45 then goParseFloatSpecialCore true rest
    else goParseFloatSpecialCore false (c :: rest)

/-- Syntax analysis of a decimal floating-point lexeme, per Go `ParseFloat`:
optional sign, digits with at most one dot (at least one digit in the
mantissa), optional exponent `e`/`E` with optional sign and at least one
digit, nothing else.  Result: `(neg, mant, exp)` with exact value
`(-1)^neg * mant * 10^exp`; `none` is a syntax error.  Hexadecimal float
syntax is omitted: no lexeme reaching the lexer's `parseFloat` can use it
(tokens with a `0x` prefix take the hexadecimal-integer path), and the
lexer's `parseFloat` rejects underscores before calling `ParseFloat`. -/
def parseDecExp (r3 : List Nat) : Option Int :=
  let esr : Int × List Nat :=
    match r3 with
    | [] => (1, [])
    | c :: rest =>
      if c = 43 then (1, rest)
      else if c = 45 then (-1, rest)
      else (1, c :: rest)
  let ed := esr.2.takeWhile isDigitB
  if ed.length = 0 || esr.2.drop ed.length ≠ [] then none
  else some (esr.1 * (digitsToNat ed : Int))

/-- The decimal mantissa-and-exponent analysis after sign stripping:
digits with at most one dot (at least one digit), then an optional exponent
part. -/
def parseDecCore (neg : Bool) (s1 : List Nat) : Option (Bool × Nat × Int) :=
  let ip := s1.takeWhile isDigitB
  let r1 := s1.drop ip.length
  let fpr : List Nat × List Nat :=
    match r1 with
    | [] => ([], [])
    | c :: r =>
      if c = 46 then (r.takeWhile isDigitB, (r.drop ((r.takeWhile isDigitB).length)))
      else ([], c :: r)
  let fp := fpr.1
  let r2 := fpr.2
  if ip.length = 0 && fp.length = 0 then none
  else
    let mant := digitsToNat (ip ++ fp)
    let dexp : Int := -(fp.length : Int)
    match r2 with
    | [] => some (neg, mant, dexp)
    | e :: r3 =>
      if e = 101 || e = 69 then
        match parseDecExp r3 with
        | none => none
        | some ex => some (neg, mant, dexp + ex)
      else none

def parseDecLexeme (s : List Nat) : Option (Bool × Nat × Int) :=
  match s with
  | [] => none
  | c :: rest =>
    if c = 43 then parseDecCore false rest
    else if c = 45 then parseDecCore true rest
    else parseDecCore false (c :: rest)

/-- Does `mant * 10^exp` reach the binary64 overflow boundary
`2^1024 - 2^970` (the smallest magnitude that rounds to infinity under
round-to-nearest-even)? -/
def float64Overflow (mant : Nat) (exp : Int) : Bool :=
  if 0 ≤ exp then decide (2 ^ 1024 - 2 ^ 970 ≤ mant * 10 ^ exp.toNat)
  else decide ((2 ^ 1024 - 2 ^ 970) * 10 ^ (-exp).toNat ≤ mant)

/-- Does nonzero `mant * 10^exp` underflow to zero in binary64, i.e. is it at
most `2^(-1075)` (half the smallest subnormal; the tie rounds to even zero)?
Go's `strconv` then returns the value zero with no error: the underflow
branches of `decimal.floatBits` never set the overflow flag. -/
def float64Underflow (mant : Nat) (exp : Int) : Bool :=
  mant ≠ 0 &&
    (if 0 ≤ exp then decide (mant * 10 ^ exp.toNat * 2 ^ 1075 ≤ 1)
     else decide (mant * 2 ^ 1075 ≤ 10 ^ (-exp).toNat))

/-- Modelled from Go stdlib `strconv.ParseFloat(s, 64)`: returns the value
and, like Go, `ErrRange` together with `±Inf` on overflow; complete
underflow returns zero with no error (the zero branches of
`decimal.floatBits` do not set the overflow flag); syntax errors return
zero. -/
def goParseFloat (s : List Nat) : GoFloat × Option GoErr :=
  match goParseFloatSpecial s with
  | some f => (f, none)
  | none =>
    match parseDecLexeme s with
    | none => (.finite false 0 0, some .errSyn)
    | some (neg, mant, exp) =>
      if float64Overflow mant exp then (.inf neg, some .errRange)
      else if float64Underflow mant exp then (.finite neg 0 0, none)
      else (.finite neg mant exp, none)

/-! ## The repository's numeric helpers (`lexer.go` 340–359, 514–524) -/

/-- `parseFloat` of `lexer.go`: reject underscores with a syntax error, then
`strconv.ParseFloat`; a range error whose result is `+Inf` is forgiven
(mirroring protoc, which turns float overflow into infinity). -/
def parseFloat (token : List Nat) : Except GoErr GoFloat :=
  if token.contains 95 then .error .errSyn
  else
    match goParseFloat token with
    | (f, none) => .ok f
    | (f, some .errRange) => if f = .inf false then .ok f else .error .errRange
    | (_, some .errSyn) => .error .errSyn

/-- `numError` of `lexer.go`: render a `strconv` error kind as the lexer's
error message. -/
def numError (e : GoErr) (kind : String) (s : String) : String :=
  match e with
  | .errRange => "value out of range for " ++ kind ++ ": " ++ s
  | .errSyn => "invalid syntax in " ++ kind ++ " value: " ++ s

/-! ## File info (`ast.FileInfo`, not under `src/`; modelled from the spec) -/

/-- Modelled from the spec: `ast.FileInfo` (§4.B) is not under `src/`.  It
holds the sorted line-start offsets (beginning at 0, append-only), the token
table mapping a token id to `(offset, length)`, and the comment-attachment
list of `(commentToken, ownerToken)` pairs in `AddComment` order. -/
structure FileInfo where
  lineStarts : List Nat
  tokens : List (Nat × Nat)
  commentAtt : List (Nat × Nat)
deriving DecidableEq, Repr

/-- Modelled from the spec: a fresh file info, line 1 starting at offset 0. -/
def FileInfo.init : FileInfo := ⟨[0], [], []⟩

/-- Modelled from the spec: `AddLine(offsetAfterNewline)` appends a line
start. -/
def FileInfo.addLine (fi : FileInfo) (off : Nat) : FileInfo :=
  { fi with lineStarts := fi.lineStarts ++ [off] }

/-- Modelled from the spec: `AddToken(offset, length)` appends to the token
table and returns the new token id (tokens are dense, in lex order). -/
def FileInfo.addToken (fi : FileInfo) (off len : Nat) : FileInfo × Nat :=
  ({ fi with tokens := fi.tokens ++ [(off, len)] }, fi.tokens.length)

/-- Modelled from the spec: `AddComment(comment, ownerToken)` records the
attachment. -/
def FileInfo.addComment (fi : FileInfo) (c owner : Nat) : FileInfo :=
  { fi with commentAtt := fi.commentAtt ++ [(c, owner)] }

/-- Modelled from the spec: `SourcePos(offset).Line` — the 1-based line of a
byte offset, i.e. the number of line starts at or before it. -/
def FileInfo.lineOf (fi : FileInfo) (off : Nat) : Nat :=
  (fi.lineStarts.filter (fun s => s ≤ off)).length

/-- The `(offset, length)` span of a token id (0 if absent; all call sites
use ids from the table). -/
def FileInfo.tokenSpan (fi : FileInfo) (t : Nat) : Nat × Nat :=
  fi.tokens.getD t (0, 0)

/-- Modelled from the spec: `TokenInfo(t).Start().Line` — tokens span
`[offset, offset+length)`. -/
def FileInfo.tokStartLine (fi : FileInfo) (t : Nat) : Nat :=
  fi.lineOf (fi.tokenSpan t).1

/-- Modelled from the spec: `TokenInfo(t).End().Line`, the position just past
the token's last byte. -/
def FileInfo.tokEndLine (fi : FileInfo) (t : Nat) : Nat :=
  fi.lineOf ((fi.tokenSpan t).1 + (fi.tokenSpan t).2)

/-- `TokenInfo(t).RawText()`: the raw bytes of the token's span. -/
def FileInfo.rawText (data : List Nat) (fi : FileInfo) (t : Nat) : List Nat :=
  (data.drop (fi.tokenSpan t).1).take (fi.tokenSpan t).2

/-! ## Terminal nodes and the lexer state -/

/-- The value carried by a terminal node (`ast.IdentNode`,
`ast.StringLiteralNode`, `ast.UintLiteralNode`, `ast.FloatLiteralNode`,
`ast.RuneNode`). -/
inductive NodeVal where
  | identV (s : String)
  | strV (bytes : List Nat)
  | uintV (v : Nat)
  | floatV (f : GoFloat)
  | runeV (r : Nat)
deriving DecidableEq, Repr

/-- A terminal node: its token id and its value. -/
structure Terminal where
  tok : Nat
  val : NodeVal
deriving DecidableEq, Repr

/-- The mutable state of `protoLex`: input bytes, cursor, mark, file info,
previous terminal, previous offset, and the pending comment tokens. -/
structure LexCore where
  data : List Nat
  pos : Nat
  mark : Nat
  info : FileInfo
  prevSym : Option Terminal
  prevOffset : Nat
  comments : List Nat
deriving DecidableEq, Repr

/-- `newLexer` state for given contents (the UTF-8 BOM stripping of
`newLexer` is outside the modelled claims; inputs are taken BOM-free). -/
def initLex (data : List Nat) : LexCore :=
  ⟨data, 0, 0, FileInfo.init, none, 0, []⟩

/-! ## Comment attribution (`setPrevAndAddComments`, `lexer.go` 367–456) -/

/-- Does the comment token's raw text start with `"//"`
(`strings.HasPrefix(commentInfo.RawText(), "//")`)? -/
def commentStyleLine (data : List Nat) (fi : FileInfo) (c : Nat) : Bool :=
  [47, 47].isPrefixOf (FileInfo.rawText data fi c)

/-- The group-walk loop of `setPrevAndAddComments` (`lexer.go` 388–412):
walk the comments after the first, merging adjacent `//`-style comments with
no blank line between them; return the index of the first detached comment,
or 0 if the walk finishes without finding a gap. -/
def findDetached (data : List Nat) (fi : FileInfo) (rest : List Nat) (i : Nat)
    (prevCommentLine : Nat) (prevSingleLineStyle : Bool) : Nat :=
  match rest with
  | [] => 0
  | c :: rest' =>
    if !prevSingleLineStyle || fi.tokStartLine c > prevCommentLine + 1 then i
    else
      let singleLineStyle := commentStyleLine data fi c
      if !singleLineStyle then i
      else findDetached data fi rest' (i + 1) (fi.tokEndLine c) singleLineStyle

/-- The first-comment-group size of `setPrevAndAddComments`
(`lexer.go` 382–417): 1 when the first comment starts on the previous
terminal's end line or is a block comment, else the result of the group
walk (the whole list when the walk finds no gap). -/
def groupEndCalc (data : List Nat) (fi : FileInfo) (comments : List Nat)
    (c : Nat) (prevEnd : Nat) : Nat :=
  if fi.tokStartLine c = prevEnd ∨ ¬commentStyleLine data fi c then 1
  else
    let g := findDetached data fi (comments.drop 1) 1
      (fi.tokEndLine c) (commentStyleLine data fi c)
    if g = 0 then comments.length else g

/-- The decision core of `setPrevAndAddComments` (`lexer.go` 370–444): split
the pending comments into the part re-attributed as the previous terminal's
trailing comments and the part attached as leading comments of `n`. -/
def splitComments (data : List Nat) (fi : FileInfo) (prevSym : Option Terminal)
    (n : Terminal) (comments : List Nat) : List Nat × List Nat :=
  match prevSym with
  | none => ([], comments)
  | some p =>
    match comments with
    | [] => ([], comments)
    | c :: _ =>
      let prevEnd := fi.tokEndLine p.tok
      let nStart := fi.tokStartLine n.tok
      let commentStart := fi.tokStartLine c
      if nStart > prevEnd ∧ (commentStart : Int) - (prevEnd : Int) ≤ 1 then
        let groupEnd := groupEndCalc data fi comments c prevEnd
        let commentEnd :=
          if groupEnd = 1 then fi.tokEndLine c
          else fi.tokEndLine (comments.getD (groupEnd - 1) 0)
        let isPunctuation : Bool :=
          match n.val with
          | .runeV r => r != 46
          | _ => false
        if isPunctuation ∨ comments.length > groupEnd ∨
            (commentStart = prevEnd ∧ nStart > commentEnd) ∨
            (nStart : Int) - (commentEnd : Int) > 1 then
          (comments.take groupEnd, comments.drop groupEnd)
        else ([], comments)
      else ([], comments)

/-- `setPrevAndAddComments` (`lexer.go` 367–456): split the pending comments,
attach the trailing part to the previous terminal's token and the rest to
`n`'s token, clear the pending buffer, and make `n` the previous terminal. -/
def setPrevAndAddComments (st : LexCore) (n : Terminal) : LexCore :=
  let split := splitComments st.data st.info st.prevSym n st.comments
  let prevTok := (st.prevSym.map (·.tok)).getD 0
  let fi1 := split.1.foldl (fun fi c => fi.addComment c prevTok) st.info
  let fi2 := split.2.foldl (fun fi c => fi.addComment c n.tok) fi1
  { st with info := fi2, comments := [], prevSym := some n }

/-! ## The rune reader (`runeReader`, `lexer.go` 32–74) -/

/-- Result of `runeReader.readRune`: end of input, a sticky decode error, or
a codepoint with its byte size.  The reader's position does not advance on
EOF or error, so the Go sticky error field is recovered by re-decoding. -/
inductive ReadRes where
  | eofR
  | errR (off b : Nat)
  | okR (r sz : Nat)
deriving DecidableEq, Repr

/-- `runeReader.readRune`: EOF at the end of the data, an invalid-UTF-8 error
(reporting the offset and offending byte), or the decoded rune. -/
def readRune (data : List Nat) (pos : Nat) : ReadRes :=
  if pos = data.length then .eofR
  else
    match decodeRune data pos with
    | none => .errR pos (data.getD pos 0)
    | some (r, sz) => .okR r sz

/-! ## Token scanners (`lexer.go` 487–512, 526–537, 539–679, 681–720) -/

/-- `readNumber` (`lexer.go` 487–512): greedily consume number characters;
a sign is accepted only immediately after an exponent `e`/`E`.  Returns the
position after the number.  `fuel` only bounds recursion; any value larger
than the remaining input length is exact. -/
def readNumber (data : List Nat) (pos : Nat) (allowExpSign : Bool) (fuel : Nat) : Nat :=
  match fuel with
  | 0 => pos
  | fuel + 1 =>
    match readRune data pos with
    | .eofR => pos
    | .errR _ _ => pos
    | .okR c sz =>
      if (c = 45 || c = 43) && !allowExpSign then pos
      else if c ≠ 46 && c ≠ 95 && !(48 ≤ c && c ≤ 57) &&
          !(97 ≤ c && c ≤ 122) && !(65 ≤ c && c ≤ 90) && c ≠ 45 && c ≠ 43 then pos
      else readNumber data (pos + sz) (c = 101 || c = 69) fuel

/-- `readIdentifier` (`lexer.go` 526–537): consume identifier characters. -/
def readIdentifier (data : List Nat) (pos : Nat) (fuel : Nat) : Nat :=
  match fuel with
  | 0 => pos
  | fuel + 1 =>
    match readRune data pos with
    | .eofR => pos
    | .errR _ _ => pos
    | .okR c sz =>
      if c ≠ 95 && !(97 ≤ c && c ≤ 122) && !(65 ≤ c && c ≤ 90) &&
          !(48 ≤ c && c ≤ 57) then pos
      else readIdentifier data (pos + sz) fuel

/-- Errors of `readStringLiteral`, one constructor per `return` site. -/
inductive StrErr where
  | unexpectedEofS
  | plainEof
  | readErrS (off b : Nat)
  | eolInString
  | nulChar
  | badHexEsc (hex : List Nat)
  | badOctEsc (oct : List Nat)
  | octRange (oct : List Nat)
  | badUni4 (u : List Nat)
  | badUni8 (u : List Nat)
  | uniRange (u : List Nat)
  | badEsc (c : Nat)
  | outOfFuelS
deriving DecidableEq, Repr

/-- Go's hexadecimal-digit test from `lexer.go` 575 (`0-9`, `a-f`, `A-F`). -/
def isHexDigitGo (c : Nat) : Bool :=
  (48 ≤ c && c ≤ 57) || (97 ≤ c && c ≤ 102) || (65 ≤ c && c ≤ 70)

/-- Is the byte an octal digit `0`–`7`? -/
def isOctDigitGo (c : Nat) : Bool := 48 ≤ c && c ≤ 55

/-- The single-character escape table of `lexer.go` 649–670. -/
def simpleEsc (e : Nat) : Option Nat :=
  if e = 97 then some 7        -- \a
  else if e = 98 then some 8   -- \b
  else if e = 102 then some 12 -- \f
  else if e = 110 then some 10 -- \n
  else if e = 114 then some 13 -- \r
  else if e = 116 then some 9  -- \t
  else if e = 118 then some 11 -- \v
  else if e = 92 then some 92  -- backslash
  else if e = 39 then some 39  -- single quote
  else if e = 34 then some 34  -- double quote
  else if e = 63 then some 63  -- question mark
  else none

/-- Read exactly `n` runes (the `\u`/`\U` loops of `lexer.go` 618–625,
633–640): returns the final position and the runes, or the first read
error. -/
def readNRunes (data : List Nat) (pos : Nat) (n : Nat) :
    Nat × Except StrErr (List Nat) :=
  match n with
  | 0 => (pos, .ok [])
  | n + 1 =>
    match readRune data pos with
    | .eofR => (pos, .error .plainEof)
    | .errR off b => (pos, .error (.readErrS off b))
    | .okR r sz =>
      let rec' := readNRunes data (pos + sz) n
      match rec'.2 with
      | .ok rs => (rec'.1, .ok (r :: rs))
      | .error e => (rec'.1, .error e)

/-- `readStringLiteral` (`lexer.go` 539–679): scan the body of a string
literal whose opening `quote` has already been consumed, decoding escapes
into a byte buffer.  Returns the position after the consumed input and the
decoded bytes or the error. -/
def readStringLiteral (data : List Nat) (quote : Nat) (pos : Nat)
    (buf : List Nat) (fuel : Nat) : Nat × Except StrErr (List Nat) :=
  match fuel with
  | 0 => (pos, .error .outOfFuelS)
  | fuel + 1 =>
    match readRune data pos with
    | .eofR => (pos, .error .unexpectedEofS)
    | .errR off b => (pos, .error (.readErrS off b))
    | .okR c sz =>
      let pos1 := pos + sz
      if c = 10 then (pos1, .error .eolInString)
      else if c = quote then (pos1, .ok buf)
      else if c = 0 then (pos1, .error .nulChar)
      else if c = 92 then
        match readRune data pos1 with
        | .eofR => (pos1, .error .plainEof)
        | .errR off b => (pos1, .error (.readErrS off b))
        | .okR e sz2 =>
          let pos2 := pos1 + sz2
          if e = 120 || e = 88 then
            -- hex escape: one unchecked digit, then an optional hex digit
            match readRune data pos2 with
            | .eofR => (pos2, .error .plainEof)
            | .errR off b => (pos2, .error (.readErrS off b))
            | .okR h1 szh1 =>
              let pos3 := pos2 + szh1
              match readRune data pos3 with
              | .eofR => (pos3, .error .plainEof)
              | .errR off b => (pos3, .error (.readErrS off b))
              | .okR h2 szh2 =>
                let hx : List Nat × Nat :=
                  if !isHexDigitGo h2 then ([h1], pos3)
                  else ([h1, h2], pos3 + szh2)
                let pr := goParseInt32 hx.1 16
                match pr.2 with
                | some _ => (hx.2, .error (.badHexEsc hx.1))
                | none =>
                  readStringLiteral data quote hx.2
                    (buf ++ [(pr.1 % 256).toNat]) fuel
          else if 48 ≤ e && e ≤ 55 then
            -- octal escape: 1–3 octal digits
            match readRune data pos2 with
            | .eofR => (pos2, .error .plainEof)
            | .errR off b => (pos2, .error (.readErrS off b))
            | .okR o2 szo2 =>
              let afterTwo : Option (List Nat × Nat) :=
                if !isOctDigitGo o2 then some ([e], pos2) else none
              match afterTwo with
              | some op =>
                let pr := goParseInt32 op.1 8
                match pr.2 with
                | some _ => (op.2, .error (.badOctEsc op.1))
                | none =>
                  if 255 < pr.1 then (op.2, .error (.octRange op.1))
                  else readStringLiteral data quote op.2
                    (buf ++ [(pr.1 % 256).toNat]) fuel
              | none =>
                match readRune data (pos2 + szo2) with
                | .eofR => (pos2 + szo2, .error .plainEof)
                | .errR off b => (pos2 + szo2, .error (.readErrS off b))
                | .okR o3 szo3 =>
                  let op : List Nat × Nat :=
                    if !isOctDigitGo o3 then ([e, o2], pos2 + szo2)
                    else ([e, o2, o3], pos2 + szo2 + szo3)
                  let pr := goParseInt32 op.1 8
                  match pr.2 with
                  | some _ => (op.2, .error (.badOctEsc op.1))
                  | none =>
                    if 255 < pr.1 then (op.2, .error (.octRange op.1))
                    else readStringLiteral data quote op.2
                      (buf ++ [(pr.1 % 256).toNat]) fuel
          else if e = 117 then
            -- short unicode escape: exactly 4 runes
            let nr := readNRunes data pos2 4
            match nr.2 with
            | .error er => (nr.1, .error er)
            | .ok u =>
              let pr := goParseInt32 u 16
              match pr.2 with
              | some _ => (nr.1, .error (.badUni4 u))
              | none =>
                readStringLiteral data quote nr.1 (buf ++ encodeRuneI pr.1) fuel
          else if e = 85 then
            -- long unicode escape: exactly 8 runes
            let nr := readNRunes data pos2 8
            match nr.2 with
            | .error er => (nr.1, .error er)
            | .ok u =>
              let pr := goParseInt32 u 16
              match pr.2 with
              | some _ => (nr.1, .error (.badUni8 u))
              | none =>
                if pr.1 > 1114111 || pr.1 < 0 then (nr.1, .error (.uniRange u))
                else
                  readStringLiteral data quote nr.1 (buf ++ encodeRuneI pr.1) fuel
          else
            match simpleEsc e with
            | some b => readStringLiteral data quote pos2 (buf ++ [b]) fuel
            | none => (pos2, .error (.badEsc e))
      else readStringLiteral data quote pos1 (buf ++ encodeRune c) fuel

/-- `skipToEndOfLineComment` (`lexer.go` 681–696): consume up to and
including the next newline (registering the new line) or to end of input;
a NUL rune is an error.  Returns `(fileInfo, newPos, hasErr)`. -/
def skipToEndOfLineComment (data : List Nat) (pos : Nat) (fi : FileInfo)
    (fuel : Nat) : FileInfo × Nat × Bool :=
  match fuel with
  | 0 => (fi, pos, false)
  | fuel + 1 =>
    match readRune data pos with
    | .eofR => (fi, pos, false)
    | .errR _ _ => (fi, pos, false)
    | .okR c sz =>
      if c = 10 then (fi.addLine (pos + sz), pos + sz, false)
      else if c = 0 then (fi, pos + sz, true)
      else skipToEndOfLineComment data (pos + sz) fi fuel

/-- `skipToEndOfBlockComment` (`lexer.go` 698–720): consume up to and
including `*/`; a NUL rune is an error; end of input before `*/` reports
not-ok.  Returns `(fileInfo, newPos, ok, hasErr)`. -/
def skipToEndOfBlockComment (data : List Nat) (pos : Nat) (fi : FileInfo)
    (fuel : Nat) : FileInfo × Nat × Bool × Bool :=
  match fuel with
  | 0 => (fi, pos, false, false)
  | fuel + 1 =>
    match readRune data pos with
    | .eofR => (fi, pos, false, false)
    | .errR _ _ => (fi, pos, false, false)
    | .okR c sz =>
      if c = 0 then (fi, pos + sz, false, true)
      else
        let fi := if c = 10 then fi.addLine (pos + sz) else fi
        if c = 42 then
          match readRune data (pos + sz) with
          | .eofR => (fi, pos + sz, false, false)
          | .errR _ _ => (fi, pos + sz, false, false)
          | .okR c2 sz2 =>
            if c2 = 47 then (fi, pos + sz + sz2, true, false)
            else skipToEndOfBlockComment data (pos + sz) fi fuel
        else skipToEndOfBlockComment data (pos + sz) fi fuel

/-! ## The main lexer loop (`Lex`, `lexer.go` 166–338) -/

/-- The grammar terminal code returned by `Lex`: a keyword code, `_NAME`,
`_INT_LIT`, `_FLOAT_LIT`, `_STRING_LIT`, or `int(c)` for a rune token. -/
inductive SymCode where
  | kw (s : String)
  | nameTok
  | intLit
  | floatLit
  | strLit
  | runeCode (r : Nat)
deriving DecidableEq, Repr

/-- A lexical error (`_ERROR` returns of `Lex`), one constructor per
`setError` site. -/
inductive LexErr where
  | invalidUtf8 (off b : Nat)
  | invalidControlChar
  | invalidChar
  | blockCommentEof
  | numE (e : GoErr) (kind : String) (text : List Nat)
  | strE (e : StrErr)
  | outOfFuelL
deriving DecidableEq, Repr

/-- The user-visible message of the lexical errors the claims mention
(matching the `errors.New`/`fmt.Errorf` format strings of `lexer.go`). -/
def lexErrMsg : LexErr → String
  | .invalidUtf8 _ _ => "invalid UTF8"
  | .invalidControlChar => "invalid control character"
  | .invalidChar => "invalid character"
  | .blockCommentEof => "block comment never terminates, unexpected EOF"
  | .numE e kind text => numError e kind (bytesToString text)
  | .strE .nulChar => "null character ('\\0') not allowed in string literal"
  | .strE .eolInString => "encountered end-of-line before end of string literal"
  | .strE _ => "string literal error"
  | .outOfFuelL => "out of fuel"

/-- The result of one `Lex` call: the EOF sentinel (Go return value 0), a
terminal, or an error. -/
inductive LexResult where
  | eofTok (t : Terminal)
  | tok (code : SymCode) (t : Terminal)
  | errTok (e : LexErr)
deriving DecidableEq, Repr

/-- The keyword table (`lexer.go` 111–154). -/
def keywords : List String :=
  ["syntax", "import", "weak", "public", "package", "option", "true",
   "false", "inf", "nan", "repeated", "optional", "required", "double",
   "float", "int32", "int64", "uint32", "uint64", "sint32", "sint64",
   "fixed32", "fixed64", "sfixed32", "sfixed64", "bool", "string", "bytes",
   "group", "oneof", "map", "extensions", "to", "max", "reserved", "enum",
   "message", "extend", "service", "rpc", "stream", "returns"]

/-- The punctuation set of `lexer.go` 331 (`";,.:=-+(){}[]<>"`). -/
def punctBytes : List Nat :=
  [59, 44, 46, 58, 61, 45, 43, 40, 41, 123, 125, 91, 93, 60, 62]

/-- Shared emission path of the `setString`/`setIdent`/`setInt`/`setFloat`/
`setRune` helpers (`lexer.go` 458–481): record the token spanning from the
mark to `endPos`, build the terminal, and run `setPrevAndAddComments`. -/
def emitT (st : LexCore) (endPos : Nat) (v : NodeVal) (code : SymCode) :
    LexCore × LexResult :=
  let st := { st with pos := endPos }
  let tka := st.info.addToken st.mark (endPos - st.mark)
  let t : Terminal := ⟨tka.2, v⟩
  let st := setPrevAndAddComments { st with info := tka.1 } t
  (st, .tok code t)

/-- The tail of the `Lex` loop (`lexer.go` 327–336): reject control
characters and anything outside the punctuation set, else emit the rune
token.  Reached with `c = '/'` through the fall-through after a failed
comment lookahead. -/
def lexPunct (st : LexCore) (c : Nat) (pos1 : Nat) : LexCore × LexResult :=
  if c < 32 || c = 127 then ({ st with pos := pos1 }, .errTok .invalidControlChar)
  else if !(punctBytes.contains c) then ({ st with pos := pos1 }, .errTok .invalidChar)
  else emitT st pos1 (.runeV c) (.runeCode c)

/-- The `for` loop of `Lex` (`lexer.go` 175–337).  One call returns one
terminal, the EOF sentinel, or an error; whitespace and comments continue
the loop.  `fuel` only bounds the recursion: any value above the remaining
input length is exact. -/
def lexLoop (st : LexCore) (fuel : Nat) : LexCore × LexResult :=
  match fuel with
  | 0 => (st, .errTok .outOfFuelL)
  | fuel + 1 =>
    let st := { st with mark := st.pos, prevOffset := st.pos }
    match readRune st.data st.pos with
    | .eofR =>
      -- EOF: emit the zero-rune sentinel so pending comments can attach
      let tka := st.info.addToken st.pos 0
      let t : Terminal := ⟨tka.2, .runeV 0⟩
      let st := setPrevAndAddComments { st with info := tka.1 } t
      (st, .eofTok t)
    | .errR off b => (st, .errTok (.invalidUtf8 off b))
    | .okR c sz =>
      let pos1 := st.pos + sz
      let flen := st.data.length + 1
      if c = 10 || c = 13 || c = 9 || c = 12 || c = 11 || c = 32 then
        let st := if c = 10 then { st with info := st.info.addLine pos1 } else st
        lexLoop { st with pos := pos1 } fuel
      else if c = 46 then
        -- a decimal literal may start with a dot
        match readRune st.data pos1 with
        | .eofR => emitT st pos1 (.runeV 46) (.runeCode 46)
        | .errR _ _ => emitT st pos1 (.runeV 46) (.runeCode 46)
        | .okR cn szn =>
          if 48 ≤ cn && cn ≤ 57 then
            let endP := readNumber st.data (pos1 + szn) false flen
            let token := (st.data.drop st.mark).take (endP - st.mark)
            match parseFloat token with
            | .error e => ({ st with pos := endP }, .errTok (.numE e "float" token))
            | .ok f => emitT st endP (.floatV f) .floatLit
          else emitT st pos1 (.runeV 46) (.runeCode 46)
      else if c = 95 || (97 ≤ c && c ≤ 122) || (65 ≤ c && c ≤ 90) then
        -- identifier
        let endP := readIdentifier st.data pos1 flen
        let token := (st.data.drop st.mark).take (endP - st.mark)
        let str := bytesToString token
        if keywords.contains str then emitT st endP (.identV str) (.kw str)
        else emitT st endP (.identV str) .nameTok
      else if 48 ≤ c && c ≤ 57 then
        -- integer or float literal
        let endP := readNumber st.data pos1 false flen
        let token := (st.data.drop st.mark).take (endP - st.mark)
        if [48, 120].isPrefixOf token || [48, 88].isPrefixOf token then
          -- hexadecimal
          let hexPart := token.drop 2
          let pr := goParseUint64 hexPart 16
          match pr.2 with
          | some e =>
            ({ st with pos := endP }, .errTok (.numE e "hexadecimal integer" hexPart))
          | none => emitT st endP (.uintV pr.1) .intLit
        else if token.contains 46 || token.contains 101 || token.contains 69 then
          -- floating point
          match parseFloat token with
          | .error e => ({ st with pos := endP }, .errTok (.numE e "float" token))
          | .ok f => emitT st endP (.floatV f) .floatLit
        else
          -- integer (decimal or octal); on overflow retry as float
          let base := if token.getD 0 0 = 48 then 8 else 10
          let pr := goParseUint64 token base
          match pr.2 with
          | none => emitT st endP (.uintV pr.1) .intLit
          | some .errRange =>
            match parseFloat token with
            | .ok f => emitT st endP (.floatV f) .floatLit
            | .error e2 => ({ st with pos := endP }, .errTok (.numE e2 "float" token))
          | some .errSyn =>
            let kind := if base = 8 then "octal integer" else "integer"
            ({ st with pos := endP }, .errTok (.numE .errSyn kind token))
      else if c = 39 || c = 34 then
        -- string literal
        let res := readStringLiteral st.data c pos1 [] flen
        match res.2 with
        | .error e => ({ st with pos := res.1 }, .errTok (.strE e))
        | .ok bs => emitT st res.1 (.strV bs) .strLit
      else if c = 47 then
        -- comment or fall-through
        match readRune st.data pos1 with
        | .eofR => emitT st pos1 (.runeV 47) (.runeCode 47)
        | .errR _ _ => emitT st pos1 (.runeV 47) (.runeCode 47)
        | .okR cn szn =>
          if cn = 47 then
            let sk := skipToEndOfLineComment st.data (pos1 + szn) st.info flen
            if sk.2.2 then
              ({ st with pos := sk.2.1, info := sk.1 }, .errTok .invalidControlChar)
            else
              let st := { st with pos := sk.2.1, info := sk.1 }
              let tka := st.info.addToken st.mark (st.pos - st.mark)
              lexLoop { st with info := tka.1, comments := st.comments ++ [tka.2] } fuel
          else if cn = 42 then
            let sk := skipToEndOfBlockComment st.data (pos1 + szn) st.info flen
            if sk.2.2.2 then
              ({ st with pos := sk.2.1, info := sk.1 }, .errTok .invalidControlChar)
            else if !sk.2.2.1 then
              ({ st with pos := sk.2.1, info := sk.1 }, .errTok .blockCommentEof)
            else
              let st := { st with pos := sk.2.1, info := sk.1 }
              let tka := st.info.addToken st.mark (st.pos - st.mark)
              lexLoop { st with info := tka.1, comments := st.comments ++ [tka.2] } fuel
          else lexPunct st 47 pos1
      else lexPunct st c pos1

/-- One `Lex` call (`lexer.go` 166–338): clear the pending-comment buffer,
then run the loop.  The diagnostic handler is modelled as always-continue,
so the `ReporterError` short-circuit at the top never fires. -/
def lexStep (st : LexCore) (fuel : Nat) : LexCore × LexResult :=
  lexLoop { st with comments := [] } fuel

/-- Drive `Lex` to completion like the parser does (with an always-continue
handler): call `lexStep` until the EOF sentinel, collecting the results. -/
def runLexAux (st : LexCore) (fuel : Nat) (acc : List LexResult) :
    LexCore × List LexResult :=
  match fuel with
  | 0 => (st, acc.reverse)
  | fuel + 1 =>
    let r := lexStep st (st.data.length + 1)
    match r.2 with
    | .eofTok t => (r.1, (LexResult.eofTok t :: acc).reverse)
    | res => runLexAux r.1 fuel (res :: acc)

/-- Lex a whole input. -/
def runLex (data : List Nat) : LexCore × List LexResult :=
  runLexAux (initLex data) (data.length + 2) []

/-- The bytes of an ASCII string, for writing concrete inputs. -/
def strBytes (s : String) : List Nat := s.toList.map Char.toNat

/-! ## Claim C1: leading/trailing comment attribution guard -/

/-- Claim C1.  For every non-comment terminal `n`: if there is no previous
terminal or no pending comments, all pending comments attach as leading
comments of `n`; re-attribution of a prefix as the previous terminal's
trailing comments happens only when `nStart > prevEnd` and
`cStart - prevEnd ≤ 1`, and otherwise every pending comment attaches as
leading of `n`. -/
theorem C1_attribution_guard (data : List Nat) (fi : FileInfo)
    (prevSym : Option Terminal) (n : Terminal) (comments : List Nat) :
    ((prevSym = none ∨ comments = []) →
      splitComments data fi prevSym n comments = ([], comments)) ∧
    (∀ p c cs, prevSym = some p → comments = c :: cs →
      ¬(fi.tokStartLine n.tok > fi.tokEndLine p.tok ∧
        (fi.tokStartLine c : Int) - (fi.tokEndLine p.tok : Int) ≤ 1) →
      splitComments data fi prevSym n comments = ([], comments)) ∧
    (∀ p c cs, prevSym = some p → comments = c :: cs →
      (splitComments data fi prevSym n comments).1 ≠ [] →
      fi.tokStartLine n.tok > fi.tokEndLine p.tok ∧
      (fi.tokStartLine c : Int) - (fi.tokEndLine p.tok : Int) ≤ 1) := by
  refine ⟨?_, ?_, ?_⟩
  · rintro (h | h)
    · subst h; simp [splitComments]
    · subst h; cases prevSym <;> simp [splitComments]
  · intro p c cs hp hc hguard
    subst hp; subst hc
    simp only [splitComments]
    rw [if_neg hguard]
  · intro p c cs hp hc hne
    by_contra hguard
    apply hne
    subst hp; subst hc
    simp only [splitComments]
    rw [if_neg hguard]

/-- Witness for C1 at a concrete input (no previous terminal). -/
theorem C1_attribution_guard_witness :
    splitComments [] FileInfo.init none ⟨0, .runeV 0⟩ [0] = ([], [0]) :=
  (C1_attribution_guard [] FileInfo.init none ⟨0, .runeV 0⟩ [0]).1 (Or.inl rfl)

/-! ## Claim C2: hexadecimal literals -/

/-- Claim C2, counterexample.  Lexing `0x1_0000_0000_0000_0000` yields an
error, but its message is an invalid-syntax message (Go's `ParseUint` with
base 16 rejects underscores as a syntax error), not
`"value out of range for integer"` as claimed. -/
theorem C2_hex_counterexample :
    (runLex (strBytes "0x1_0000_0000_0000_0000")).2 =
      [LexResult.errTok
        (.numE .errSyn "hexadecimal integer" (strBytes "1_0000_0000_0000_0000")),
       LexResult.eofTok ⟨0, .runeV 0⟩] ∧
    lexErrMsg (.numE .errSyn "hexadecimal integer" (strBytes "1_0000_0000_0000_0000")) =
      "invalid syntax in hexadecimal integer value: 1_0000_0000_0000_0000" ∧
    "invalid syntax in hexadecimal integer value: 1_0000_0000_0000_0000" ≠
      "value out of range for integer" := by
  refine ⟨by decide, by decide, by decide⟩

/-- Claim C2 as amended.  Lexing `0xFFFFFFFFFFFFFFFF` produces an
unsigned-integer literal of value `2^64 - 1`; lexing
`0x1_0000_0000_0000_0000` produces an error whose message is
`"invalid syntax in hexadecimal integer value: 1_0000_0000_0000_0000"`. -/
theorem C2_hex_amended :
    (runLex (strBytes "0xFFFFFFFFFFFFFFFF")).2 =
      [LexResult.tok .intLit ⟨0, .uintV (2 ^ 64 - 1)⟩,
       LexResult.eofTok ⟨1, .runeV 0⟩] ∧
    (runLex (strBytes "0x1_0000_0000_0000_0000")).2 =
      [LexResult.errTok
        (.numE .errSyn "hexadecimal integer" (strBytes "1_0000_0000_0000_0000")),
       LexResult.eofTok ⟨0, .runeV 0⟩] ∧
    lexErrMsg (.numE .errSyn "hexadecimal integer" (strBytes "1_0000_0000_0000_0000")) =
      "invalid syntax in hexadecimal integer value: 1_0000_0000_0000_0000" := by
  refine ⟨by decide, by decide, by decide⟩

/-! ## Claim C7: string-literal escape decoding -/

/-- Claim C7.  Lexing the string literal `"\xFF\101\nA"` succeeds and
produces the byte string `0xFF 0x41 0x0A 0x41`. -/
theorem C7_escape_bytes :
    (runLex (strBytes "\"\\xFF\\101\\n\\u0041\"")).2 =
      [LexResult.tok .strLit ⟨0, .strV [255, 65, 10, 65]⟩,
       LexResult.eofTok ⟨1, .runeV 0⟩] := by decide

/-! ## Claim C3: EOF sentinel and final comments -/

/-- `FileInfo.addComment` leaves the token table unchanged. -/
theorem addComment_tokens (fi : FileInfo) (c o : Nat) :
    (fi.addComment c o).tokens = fi.tokens := rfl

/-- Attaching a list of comments leaves the token table unchanged. -/
theorem foldl_addComment_tokens (l : List Nat) (fi : FileInfo) (o : Nat) :
    (l.foldl (fun fi c => fi.addComment c o) fi).tokens = fi.tokens := by
  induction l generalizing fi with
  | nil => rfl
  | cons c cs ih => simpa using ih (fi.addComment c o)

/-- `setPrevAndAddComments` leaves the token table unchanged. -/
theorem setPrevAndAddComments_tokens (st : LexCore) (n : Terminal) :
    (setPrevAndAddComments st n).info.tokens = st.info.tokens := by
  simp [setPrevAndAddComments, foldl_addComment_tokens]

/-- Claim C3, counterexample.  On the input `x// c` (no newline after the
last terminal) the pending comment (token 1) is attached to the EOF sentinel
(token 2) — a leading comment of the sentinel — and not to the last real
terminal `x` (token 0), because the sentinel starts on the same line as
`x` ends, so the re-attribution guard `nStart > prevEnd` fails. -/
theorem C3_eof_counterexample :
    (runLex (strBytes "x// c")).2 =
      [LexResult.tok .nameTok ⟨0, .identV "x"⟩, LexResult.eofTok ⟨2, .runeV 0⟩] ∧
    (runLex (strBytes "x// c")).1.info.commentAtt = [(1, 2)] ∧ (2 : Nat) ≠ 0 := by
  refine ⟨by decide, by decide, by decide⟩

/-- Claim C3 as amended.  At end of input the lexer emits a zero-rune
sentinel terminal with a zero-length token; pending comments attach as
trailing comments of the last real terminal only under the re-attribution
guard (`sentinelStart > prevEnd` and `cStart - prevEnd ≤ 1`), in which case
a nonempty first group moves to the previous terminal (the sentinel is a
non-dot rune, so the punctuation clause always fires) and the remainder
attaches as leading of the sentinel; otherwise every pending comment
attaches as leading of the sentinel. -/
theorem C3_eof_sentinel :
    (∀ st : LexCore, ∀ fuel : Nat, st.pos = st.data.length →
      (lexStep st (fuel + 1)).2 = .eofTok ⟨st.info.tokens.length, .runeV 0⟩ ∧
      (lexStep st (fuel + 1)).1.info.tokens.get? st.info.tokens.length =
        some (st.pos, 0)) ∧
    (∀ data fi (p : Terminal) (tk c : Nat) (cs : List Nat),
      fi.tokStartLine tk > fi.tokEndLine p.tok →
      (fi.tokStartLine c : Int) - (fi.tokEndLine p.tok : Int) ≤ 1 →
      ∃ k, 0 < k ∧
        splitComments data fi (some p) ⟨tk, .runeV 0⟩ (c :: cs) =
          ((c :: cs).take k, (c :: cs).drop k)) ∧
    (∀ data fi (p : Terminal) (tk c : Nat) (cs : List Nat),
      ¬(fi.tokStartLine tk > fi.tokEndLine p.tok ∧
        (fi.tokStartLine c : Int) - (fi.tokEndLine p.tok : Int) ≤ 1) →
      splitComments data fi (some p) ⟨tk, .runeV 0⟩ (c :: cs) = ([], c :: cs)) := by
  refine ⟨?_, ?_, ?_⟩
  · intro st fuel hpos
    have hr : readRune st.data st.data.length = .eofR := by simp [readRune]
    simp only [lexStep, lexLoop, hpos, hr]
    constructor
    · rfl
    · rw [setPrevAndAddComments_tokens]
      simp [FileInfo.addToken, List.getElem?_concat_length]
  · intro data fi p tk c cs hgt hle
    refine ⟨groupEndCalc data fi (c :: cs) c (fi.tokEndLine p.tok), ?_, ?_⟩
    · unfold groupEndCalc
      split
      · omega
      · dsimp only
        split
        · simp_all
        · simp_all
          omega
    · simp only [splitComments]
      rw [if_pos ⟨hgt, hle⟩]
      dsimp only
      rw [if_pos (Or.inl (show ((0 : Nat) != 46) = true by decide))]
  · intro data fi p tk c cs hguard
    simp only [splitComments]
    rw [if_neg hguard]

/-- Witness for C3 at concrete inputs: the empty input produces the sentinel
immediately, and on `x<newline>// c` the guard holds so the comment becomes
trailing of `x`. -/
theorem C3_eof_sentinel_witness :
    (lexStep (initLex []) 1).2 = .eofTok ⟨0, .runeV 0⟩ ∧
    (∃ k, 0 < k ∧
      splitComments (strBytes "x\n// c") ⟨[0, 2], [(0, 1), (2, 4), (6, 0)], []⟩
        (some ⟨0, .identV "x"⟩) ⟨2, .runeV 0⟩ [1] = ([1].take k, [1].drop k)) :=
  ⟨(C3_eof_sentinel.1 (initLex []) 0 rfl).1,
   C3_eof_sentinel.2.1 (strBytes "x\n// c") ⟨[0, 2], [(0, 1), (2, 4), (6, 0)], []⟩
     ⟨0, .identV "x"⟩ 2 1 [] (by decide) (by decide)⟩

/-! ## Claim C4: NUL in string literals -/

/-- A successful `readRune` is a successful decode. -/
theorem readRune_okR (data : List Nat) (pos r sz : Nat)
    (h : readRune data pos = .okR r sz) : decodeRune data pos = some (r, sz) := by
  unfold readRune at h
  split_ifs at h
  cases hd : decodeRune data pos with
  | none => rw [hd] at h; exact absurd h (by simp)
  | some v => rw [hd] at h; cases h; rfl

/-- No byte of a successfully decoded rune other than NUL itself is the NUL
byte: the consumed bytes are the (nonzero) ASCII rune itself or bytes
at least 128. -/
theorem decodeRune_no_zero (data : List Nat) (pos r sz : Nat)
    (h : decodeRune data pos = some (r, sz)) (hr : r ≠ 0) :
    ∀ i, pos ≤ i → i < pos + sz → data.get? i ≠ some 0 := by
  intro i hi1 hi2 hcon
  unfold decodeRune at h
  cases hb0 : data.get? pos with
  | none => rw [hb0] at h; exact absurd h (by simp)
  | some b0 =>
    rw [hb0] at h
    dsimp only at h
    rcases hb1 : data.get? (pos + 1) with _ | b1 <;>
      rcases hb2 : data.get? (pos + 2) with _ | b2 <;>
        rcases hb3 : data.get? (pos + 3) with _ | b3 <;>
          (try simp only [hb1, hb2, hb3] at h) <;>
          (try split_ifs at h) <;>
          first
            | (simp at h; done)
            | (simp only [Option.some.injEq, Prod.mk.injEq] at h
               obtain ⟨hre, hsz⟩ := h
               subst hsz
               simp only [contByte, Bool.and_eq_true, decide_eq_true_eq] at *
               have hip : i = pos ∨ i = pos + 1 ∨ i = pos + 2 ∨ i = pos + 3 := by
                 omega
               rcases hip with rfl | rfl | rfl | rfl <;>
                 simp only [hb0, hb1, hb2, hb3, Option.some.injEq] at hcon <;>
                 omega)

/-- The consumed bytes of a successfully read nonzero rune contain no NUL. -/
theorem readRune_no_zero (data : List Nat) (pos r sz : Nat)
    (h : readRune data pos = .okR r sz) (hr : r ≠ 0) :
    ∀ i, pos ≤ i → i < pos + sz → data.get? i ≠ some 0 :=
  decodeRune_no_zero data pos r sz (readRune_okR data pos r sz h) hr

/-- Concatenating two adjacent NUL-free regions. -/
theorem noZero_append {data : List Nat} {a b c : Nat}
    (h1 : ∀ i, a ≤ i → i < b → data.get? i ≠ some 0)
    (h2 : ∀ i, b ≤ i → i < c → data.get? i ≠ some 0) :
    ∀ i, a ≤ i → i < c → data.get? i ≠ some 0 := by
  intro i hi1 hi2
  by_cases hib : i < b
  · exact h1 i hi1 hib
  · exact h2 i (by omega) hi2

/-- A successful `parseUintLoop` saw only valid digit characters. -/
theorem parseUintLoop_digits (base maxV cutoff : Nat) :
    ∀ (s : List Nat) (n : Nat), (parseUintLoop base maxV cutoff s n).2 = none →
      ∀ x ∈ s, digitVal x ≠ none := by
  intro s
  induction s with
  | nil => simp
  | cons c rest ih =>
    intro n h x hx
    unfold parseUintLoop at h
    cases hd : digitVal c with
    | none => rw [hd] at h; simp at h
    | some d =>
      rw [hd] at h
      dsimp only at h
      split_ifs at h <;>
        first
          | (simp at h; done)
          | exact (List.mem_cons.mp hx).elim
              (fun hxe => by subst hxe; rw [hd]; simp)
              (fun hx' => ih (n * base + d) h x hx')

/-- A successful `goParseInt32Core` saw only valid digit characters. -/
theorem goParseInt32Core_digits (neg : Bool) (digits : List Nat) (base : Nat)
    (h : (goParseInt32Core neg digits base).2 = none) :
    ∀ x ∈ digits, digitVal x ≠ none := by
  unfold goParseInt32Core at h
  by_cases hd : digits = []
  · rw [if_pos hd] at h; simp at h
  · rw [if_neg hd] at h
    dsimp only at h
    cases hpr : (parseUintLoop base (2 ^ 32 - 1) ((2 ^ 32 - 1) / base + 1) digits 0).2 with
    | none =>
      exact parseUintLoop_digits base (2 ^ 32 - 1) ((2 ^ 32 - 1) / base + 1)
        digits 0 hpr
    | some ge =>
      rw [hpr] at h
      cases ge with
      | errSyn => simp at h
      | errRange =>
        dsimp only at h
        split_ifs at h <;> simp at h

/-- A successful `goParseInt32` contains no NUL byte (every character is a
sign or a valid digit). -/
theorem goParseInt32_no_zero (s : List Nat) (base : Nat)
    (h : (goParseInt32 s base).2 = none) : ∀ x ∈ s, x ≠ 0 := by
  have hdig : ∀ (n : Bool) (ds : List Nat), (goParseInt32Core n ds base).2 = none →
      ∀ x ∈ ds, x ≠ 0 := by
    intro n ds hds x hx hx0
    subst hx0
    exact goParseInt32Core_digits n ds base hds 0 hx (by decide)
  rcases s with _ | ⟨c, rest⟩
  · simp
  · unfold goParseInt32 at h
    dsimp only at h
    split_ifs at h with h43 h45
    · subst h43
      intro x hx
      rcases List.mem_cons.mp hx with rfl | hx'
      · omega
      · exact hdig false rest h x hx'
    · subst h45
      intro x hx
      rcases List.mem_cons.mp hx with rfl | hx'
      · omega
      · exact hdig true rest h x hx'
    · exact hdig false (c :: rest) h

/-- The region consumed by a successful `readNRunes` whose runes are all
nonzero contains no NUL byte. -/
theorem readNRunes_no_zero (data : List Nat) :
    ∀ (n : Nat) (pos endP : Nat) (rs : List Nat),
      readNRunes data pos n = (endP, .ok rs) → (∀ x ∈ rs, x ≠ 0) →
      ∀ i, pos ≤ i → i < endP → data.get? i ≠ some 0 := by
  intro n
  induction n with
  | zero =>
    intro pos endP rs h _ i hi1 hi2
    unfold readNRunes at h
    simp only [Prod.mk.injEq] at h
    omega
  | succ n ih =>
    intro pos endP rs h hrs i hi1 hi2
    unfold readNRunes at h
    cases hrr : readRune data pos with
    | eofR => rw [hrr] at h; simp at h
    | errR o b => rw [hrr] at h; simp at h
    | okR r sz =>
      rw [hrr] at h
      dsimp only at h
      rcases hrec : readNRunes data (pos + sz) n with ⟨endP', res⟩
      rw [hrec] at h
      cases res with
      | error e => simp at h
      | ok rs' =>
        simp only [Prod.mk.injEq, Except.ok.injEq] at h
        obtain ⟨rfl, rfl⟩ := h
        refine noZero_append
          (readRune_no_zero data pos r sz hrr (hrs r (by simp)))
          (ih (pos + sz) endP' rs' hrec (fun x hx => hrs x (by simp [hx]))) i hi1 hi2

/-- A simple escape character is never the NUL rune. -/
theorem simpleEsc_ne_zero (e b : Nat) (h : simpleEsc e = some b) : e ≠ 0 := by
  intro he
  subst he
  simp [simpleEsc] at h

/-- When `readStringLiteral` succeeds, the consumed span of the input
contains no NUL byte: every raw NUL is rejected before the closing quote. -/
theorem readStringLiteral_ok_no_nul (data : List Nat) (quote : Nat) (hq : quote ≠ 0) :
    ∀ (fuel pos : Nat) (buf : List Nat) (endP : Nat) (v : List Nat),
      readStringLiteral data quote pos buf fuel = (endP, .ok v) →
      ∀ i, pos ≤ i → i < endP → data.get? i ≠ some 0 := by
  intro fuel
  induction fuel with
  | zero =>
    intro pos buf endP v h
    unfold readStringLiteral at h
    simp at h
  | succ fuel ih =>
    intro pos buf endP v h
    unfold readStringLiteral at h
    cases hrr : readRune data pos with
    | eofR => rw [hrr] at h; simp at h
    | errR o b => rw [hrr] at h; simp at h
    | okR c sz =>
      rw [hrr] at h
      dsimp only at h
      by_cases hc10 : c = 10
      · rw [if_pos hc10] at h; simp at h
      rw [if_neg hc10] at h
      by_cases hcq : c = quote
      · rw [if_pos hcq] at h
        simp only [Prod.mk.injEq] at h
        obtain ⟨h1, -⟩ := h
        subst h1
        exact fun i hi1 hi2 => readRune_no_zero data pos c sz hrr (by omega) i hi1 hi2
      rw [if_neg hcq] at h
      by_cases hc0 : c = 0
      · rw [if_pos hc0] at h; simp at h
      rw [if_neg hc0] at h
      by_cases hc92 : c = 92
      case neg =>
        rw [if_neg hc92] at h
        exact noZero_append (readRune_no_zero data pos c sz hrr hc0)
          (ih (pos + sz) (buf ++ encodeRune c) endP v h)
      case pos =>
        rw [if_pos hc92] at h
        have hczero : c ≠ 0 := hc0
        cases hrr2 : readRune data (pos + sz) with
        | eofR => rw [hrr2] at h; simp at h
        | errR o b => rw [hrr2] at h; simp at h
        | okR e sz2 =>
          rw [hrr2] at h
          dsimp only at h
          by_cases hhex : (decide (e = 120) || decide (e = 88)) = true
          · -- hex escape
            rw [if_pos hhex] at h
            have he0 : e ≠ 0 := by
              simp only [Bool.or_eq_true, decide_eq_true_eq] at hhex
              omega
            cases hrr3 : readRune data (pos + sz + sz2) with
            | eofR => rw [hrr3] at h; simp at h
            | errR o b => rw [hrr3] at h; simp at h
            | okR h1 szh1 =>
              rw [hrr3] at h
              dsimp only at h
              cases hrr4 : readRune data (pos + sz + sz2 + szh1) with
              | eofR => rw [hrr4] at h; simp at h
              | errR o b => rw [hrr4] at h; simp at h
              | okR h2 szh2 =>
                rw [hrr4] at h
                dsimp only at h
                split_ifs at h with hh2
                · -- one hex digit, h2 unread
                  dsimp only at h
                  cases hpr : (goParseInt32 [h1] 16).2 with
                  | some ge => rw [hpr] at h; simp at h
                  | none =>
                    rw [hpr] at h
                    dsimp only at h
                    have hh1 : h1 ≠ 0 :=
                      goParseInt32_no_zero [h1] 16 hpr h1 (by simp)
                    exact noZero_append (readRune_no_zero data pos c sz hrr hczero)
                      (noZero_append (readRune_no_zero data (pos + sz) e sz2 hrr2 he0)
                        (noZero_append
                          (readRune_no_zero data (pos + sz + sz2) h1 szh1 hrr3 hh1)
                          (ih _ _ endP v h)))
                · -- two hex digits
                  dsimp only at h
                  cases hpr : (goParseInt32 [h1, h2] 16).2 with
                  | some ge => rw [hpr] at h; simp at h
                  | none =>
                    rw [hpr] at h
                    dsimp only at h
                    have hh1 : h1 ≠ 0 :=
                      goParseInt32_no_zero [h1, h2] 16 hpr h1 (by simp)
                    have hh2v : h2 ≠ 0 :=
                      goParseInt32_no_zero [h1, h2] 16 hpr h2 (by simp)
                    exact noZero_append (readRune_no_zero data pos c sz hrr hczero)
                      (noZero_append (readRune_no_zero data (pos + sz) e sz2 hrr2 he0)
                        (noZero_append
                          (readRune_no_zero data (pos + sz + sz2) h1 szh1 hrr3 hh1)
                          (noZero_append
                            (readRune_no_zero data (pos + sz + sz2 + szh1) h2 szh2 hrr4 hh2v)
                            (ih _ _ endP v h))))
          rw [if_neg hhex] at h
          by_cases hoct : (decide (48 ≤ e) && decide (e ≤ 55)) = true
          · -- octal escape
            rw [if_pos hoct] at h
            have he0 : e ≠ 0 := by
              simp only [Bool.and_eq_true, decide_eq_true_eq] at hoct
              omega
            cases hrr3 : readRune data (pos + sz + sz2) with
            | eofR => rw [hrr3] at h; simp at h
            | errR o b => rw [hrr3] at h; simp at h
            | okR o2 szo2 =>
              rw [hrr3] at h
              dsimp only at h
              split_ifs at h with ho2
              · -- one octal digit, o2 unread
                dsimp only at h
                cases hpr : (goParseInt32 [e] 8).2 with
                | some ge => rw [hpr] at h; simp at h
                | none =>
                  rw [hpr] at h
                  dsimp only at h
                  split_ifs at h with hrange
                  · simp at h
                  · exact noZero_append (readRune_no_zero data pos c sz hrr hczero)
                      (noZero_append (readRune_no_zero data (pos + sz) e sz2 hrr2 he0)
                        (ih _ _ endP v h))
              · -- at least two octal digits
                dsimp only at h
                have ho2v : o2 ≠ 0 := by
                  have hoc : isOctDigitGo o2 = true := by
                    cases hb : isOctDigitGo o2
                    · rw [hb] at ho2; simp at ho2
                    · rfl
                  simp only [isOctDigitGo, Bool.and_eq_true, decide_eq_true_eq] at hoc
                  omega
                cases hrr4 : readRune data (pos + sz + sz2 + szo2) with
                | eofR => rw [hrr4] at h; simp at h
                | errR o b => rw [hrr4] at h; simp at h
                | okR o3 szo3 =>
                  rw [hrr4] at h
                  dsimp only at h
                  by_cases ho3 : (!isOctDigitGo o3) = true
                  · -- two octal digits, o3 unread
                    rw [if_pos ho3] at h
                    dsimp only at h
                    cases hpr : (goParseInt32 [e, o2] 8).2 with
                    | some ge => rw [hpr] at h; simp at h
                    | none =>
                      rw [hpr] at h
                      dsimp only at h
                      by_cases hrange : 255 < (goParseInt32 [e, o2] 8).1
                      · rw [if_pos hrange] at h; simp at h
                      · rw [if_neg hrange] at h
                        exact noZero_append (readRune_no_zero data pos c sz hrr hczero)
                          (noZero_append
                            (readRune_no_zero data (pos + sz) e sz2 hrr2 he0)
                            (noZero_append
                              (readRune_no_zero data (pos + sz + sz2) o2 szo2 hrr3 ho2v)
                              (ih _ _ endP v h)))
                  · -- three octal digits
                    rw [if_neg ho3] at h
                    dsimp only at h
                    have ho3v : o3 ≠ 0 := by
                      have hoc : isOctDigitGo o3 = true := by
                        cases hb : isOctDigitGo o3
                        · rw [hb] at ho3; simp at ho3
                        · rfl
                      simp only [isOctDigitGo, Bool.and_eq_true, decide_eq_true_eq] at hoc
                      omega
                    cases hpr : (goParseInt32 [e, o2, o3] 8).2 with
                    | some ge => rw [hpr] at h; simp at h
                    | none =>
                      rw [hpr] at h
                      dsimp only at h
                      by_cases hrange : 255 < (goParseInt32 [e, o2, o3] 8).1
                      · rw [if_pos hrange] at h; simp at h
                      · rw [if_neg hrange] at h
                        exact noZero_append (readRune_no_zero data pos c sz hrr hczero)
                          (noZero_append
                            (readRune_no_zero data (pos + sz) e sz2 hrr2 he0)
                            (noZero_append
                              (readRune_no_zero data (pos + sz + sz2) o2 szo2 hrr3 ho2v)
                              (noZero_append
                                (readRune_no_zero data (pos + sz + sz2 + szo2) o3 szo3 hrr4 ho3v)
                                (ih _ _ endP v h))))
          rw [if_neg hoct] at h
          by_cases hu : e = 117
          · -- short unicode escape
            rw [if_pos hu] at h
            rcases hnr : readNRunes data (pos + sz + sz2) 4 with ⟨np, res⟩
            rw [hnr] at h
            dsimp only at h
            cases res with
            | error er => simp at h
            | ok u =>
              dsimp only at h
              cases hpr : (goParseInt32 u 16).2 with
              | some ge => rw [hpr] at h; simp at h
              | none =>
                rw [hpr] at h
                dsimp only at h
                exact noZero_append (readRune_no_zero data pos c sz hrr hczero)
                  (noZero_append
                    (readRune_no_zero data (pos + sz) e sz2 hrr2 (by omega))
                    (noZero_append
                      (readNRunes_no_zero data 4 (pos + sz + sz2) np u hnr
                        (goParseInt32_no_zero u 16 hpr))
                      (ih _ _ endP v h)))
          rw [if_neg hu] at h
          by_cases hU : e = 85
          · -- long unicode escape
            rw [if_pos hU] at h
            rcases hnr : readNRunes data (pos + sz + sz2) 8 with ⟨np, res⟩
            rw [hnr] at h
            dsimp only at h
            cases res with
            | error er => simp at h
            | ok u =>
              dsimp only at h
              cases hpr : (goParseInt32 u 16).2 with
              | some ge => rw [hpr] at h; simp at h
              | none =>
                rw [hpr] at h
                dsimp only at h
                split_ifs at h with hrange
                · simp at h
                · exact noZero_append (readRune_no_zero data pos c sz hrr hczero)
                    (noZero_append
                      (readRune_no_zero data (pos + sz) e sz2 hrr2 (by omega))
                      (noZero_append
                        (readNRunes_no_zero data 8 (pos + sz + sz2) np u hnr
                          (goParseInt32_no_zero u 16 hpr))
                        (ih _ _ endP v h)))
          rw [if_neg hU] at h
          cases hse : simpleEsc e with
          | none => rw [hse] at h; simp at h
          | some b =>
            rw [hse] at h
            dsimp only at h
            exact noZero_append (readRune_no_zero data pos c sz hrr hczero)
              (noZero_append
                (readRune_no_zero data (pos + sz) e sz2 hrr2 (simpleEsc_ne_zero e b hse))
                (ih _ _ endP v h))

/-- A raw NUL rune at the scanner's cursor inside a string-literal body is
rejected immediately with the null-character error. -/
theorem readStringLiteral_nul_step (data : List Nat) (quote pos : Nat)
    (buf : List Nat) (fuel : Nat) (hq : quote ≠ 0)
    (h0 : data.get? pos = some 0) :
    readStringLiteral data quote pos buf (fuel + 1) = (pos + 1, .error .nulChar) := by
  have hlt : pos < data.length := by
    rcases List.get?_eq_some.mp h0 with ⟨hl, -⟩
    exact hl
  have hdr : decodeRune data pos = some (0, 1) := by
    unfold decodeRune
    rw [h0]
    simp
  have hrr : readRune data pos = .okR 0 1 := by
    unfold readRune
    rw [if_neg (by omega), hdr]
  unfold readStringLiteral
  rw [hrr]
  dsimp only
  rw [if_neg (by decide), if_neg (by omega), if_pos rfl]

/-- Claim C4, counterexample.  The escape spelling `\0` of the NUL codepoint
is accepted, not rejected: lexing the literal `"\0"` succeeds and yields the
single byte 0 (the escape is handled by the octal-escape branch). -/
theorem C4_nul_counterexample :
    (runLex (strBytes "\"\\0\"")).2 =
      [LexResult.tok .strLit ⟨0, .strV [0]⟩, LexResult.eofTok ⟨1, .runeV 0⟩] := by
  decide

/-- Claim C4 as amended.  For every string literal being lexed, an
occurrence of the NUL codepoint appearing raw in the source is rejected with
the null-character error, and reading a string literal never succeeds when
the consumed literal contains a raw NUL byte (the escape spelling `\0`, by
contrast, is accepted and produces byte 0). -/
theorem C4_nul_rejected :
    (∀ (data : List Nat) (quote pos : Nat) (buf : List Nat) (fuel : Nat),
      quote ≠ 0 → data.get? pos = some 0 →
      readStringLiteral data quote pos buf (fuel + 1) =
        (pos + 1, .error .nulChar)) ∧
    (∀ (data : List Nat) (quote : Nat), quote ≠ 0 →
      ∀ (fuel pos : Nat) (buf : List Nat) (endP : Nat) (v : List Nat),
        readStringLiteral data quote pos buf fuel = (endP, .ok v) →
        ∀ i, pos ≤ i → i < endP → data.get? i ≠ some 0) ∧
    lexErrMsg (.strE .nulChar) =
      "null character ('\\0') not allowed in string literal" :=
  ⟨fun data quote pos buf fuel hq h0 =>
      readStringLiteral_nul_step data quote pos buf fuel hq h0,
   fun data quote hq => readStringLiteral_ok_no_nul data quote hq,
   rfl⟩

/-- Witness for C4 at concrete inputs: the body `<NUL>` is rejected at once,
and the successful scan of the body `a"` has no NUL in its span. -/
theorem C4_nul_rejected_witness :
    readStringLiteral [0] 34 0 [] 1 = (1, .error .nulChar) ∧
    (strBytes "a\"").get? 0 ≠ some 0 :=
  ⟨C4_nul_rejected.1 [0] 34 0 [] 0 (by decide) (by decide),
   C4_nul_rejected.2.1 (strBytes "a\"") 34 (by decide) 3 0 [] 2 [97]
     (by rfl) 0 (by decide) (by decide)⟩

/-! ## Claims C5 and C9: comment scanning -/

/-- `readRune` reports EOF exactly at the end of the data. -/
theorem readRune_eofR_eq (data : List Nat) (pos : Nat)
    (h : readRune data pos = .eofR) : pos = data.length := by
  unfold readRune at h
  split_ifs at h with hp
  · exact hp
  · cases hd : decodeRune data pos with
    | none => rw [hd] at h; simp at h
    | some v => rw [hd] at h; simp at h

/-- A `readRune` decode error means the decoder failed at that offset. -/
theorem readRune_errR_decode (data : List Nat) (pos o b : Nat)
    (h : readRune data pos = .errR o b) : decodeRune data pos = none := by
  unfold readRune at h
  by_cases hp : pos = data.length
  · rw [if_pos hp] at h; simp at h
  · rw [if_neg hp] at h
    cases hd : decodeRune data pos with
    | none => rfl
    | some v => rw [hd] at h; simp at h

/-- A successful decode consumes at least one byte. -/
theorem decodeRune_sz_pos (data : List Nat) (pos r sz : Nat)
    (h : decodeRune data pos = some (r, sz)) : 1 ≤ sz := by
  unfold decodeRune at h
  cases hb0 : data.get? pos with
  | none => rw [hb0] at h; simp at h
  | some b0 =>
    rw [hb0] at h
    dsimp only at h
    rcases hb1 : data.get? (pos + 1) with _ | b1 <;>
      rcases hb2 : data.get? (pos + 2) with _ | b2 <;>
        rcases hb3 : data.get? (pos + 3) with _ | b3 <;>
          (try simp only [hb1, hb2, hb3] at h) <;>
          (try split_ifs at h) <;>
          first
            | (simp at h; done)
            | (simp only [Option.some.injEq, Prod.mk.injEq] at h
               omega)

/-- A rune below 128 always comes from a single byte equal to it. -/
theorem decodeRune_small (data : List Nat) (pos r sz : Nat)
    (h : decodeRune data pos = some (r, sz)) (hr : r < 128) :
    sz = 1 ∧ data.get? pos = some r := by
  unfold decodeRune at h
  cases hb0 : data.get? pos with
  | none => rw [hb0] at h; simp at h
  | some b0 =>
    rw [hb0] at h
    dsimp only at h
    rcases hb1 : data.get? (pos + 1) with _ | b1 <;>
      rcases hb2 : data.get? (pos + 2) with _ | b2 <;>
        rcases hb3 : data.get? (pos + 3) with _ | b3 <;>
          (try simp only [hb1, hb2, hb3] at h) <;>
          (try split_ifs at h) <;>
          first
            | (simp at h; done)
            | (simp only [Option.some.injEq, Prod.mk.injEq] at h
               simp only [contByte, Bool.and_eq_true, decide_eq_true_eq] at *
               refine ⟨by omega, ?_⟩
               simp only [Option.some.injEq]
               omega)

/-- A successful decode happens strictly inside the data. -/
theorem decodeRune_lt_len (data : List Nat) (pos r sz : Nat)
    (h : decodeRune data pos = some (r, sz)) : pos < data.length := by
  unfold decodeRune at h
  cases hb0 : data.get? pos with
  | none => rw [hb0] at h; simp at h
  | some b0 => exact (List.get?_eq_some.mp hb0).1

/-- When `skipToEndOfLineComment` returns without error (and fuel exceeds
the remaining input), it stopped at end of input, just past a newline, or at
an invalid-UTF-8 boundary. -/
theorem skipToEndOfLineComment_ends (data : List Nat) :
    ∀ (fuel pos : Nat) (fi fi' : FileInfo) (endP : Nat),
      skipToEndOfLineComment data pos fi fuel = (fi', endP, false) →
      data.length - pos < fuel →
      endP = data.length ∨ data.get? (endP - 1) = some 10 ∨
        decodeRune data endP = none := by
  intro fuel
  induction fuel with
  | zero => intro pos fi fi' endP h hf; omega
  | succ fuel ih =>
    intro pos fi fi' endP h hf
    unfold skipToEndOfLineComment at h
    cases hrr : readRune data pos with
    | eofR =>
      rw [hrr] at h
      simp only [Prod.mk.injEq] at h
      obtain ⟨-, h2, -⟩ := h
      rw [← h2]
      exact Or.inl (readRune_eofR_eq data pos hrr)
    | errR o b =>
      rw [hrr] at h
      simp only [Prod.mk.injEq] at h
      obtain ⟨-, h2, -⟩ := h
      rw [← h2]
      exact Or.inr (Or.inr (readRune_errR_decode data pos o b hrr))
    | okR c sz =>
      rw [hrr] at h
      dsimp only at h
      have hd := readRune_okR data pos c sz hrr
      have hsz := decodeRune_sz_pos data pos c sz hd
      have hlt := decodeRune_lt_len data pos c sz hd
      by_cases hc10 : c = 10
      · rw [if_pos hc10] at h
        simp only [Prod.mk.injEq] at h
        obtain ⟨-, h2, -⟩ := h
        obtain ⟨hsz1, hb⟩ := decodeRune_small data pos c sz hd (by omega)
        refine Or.inr (Or.inl ?_)
        rw [← h2, hsz1]
        simpa [hc10] using hb
      · rw [if_neg hc10] at h
        by_cases hc0 : c = 0
        · rw [if_pos hc0] at h; simp at h
        · rw [if_neg hc0] at h
          exact ih (pos + sz) fi fi' endP h (by omega)

/-- When `skipToEndOfLineComment` reports an error, the rune it stopped on
was the NUL codepoint (its byte is the last consumed byte). -/
theorem skipToEndOfLineComment_err (data : List Nat) :
    ∀ (fuel pos : Nat) (fi fi' : FileInfo) (endP : Nat),
      skipToEndOfLineComment data pos fi fuel = (fi', endP, true) →
      data.get? (endP - 1) = some 0 := by
  intro fuel
  induction fuel with
  | zero => intro pos fi fi' endP h; simp [skipToEndOfLineComment] at h
  | succ fuel ih =>
    intro pos fi fi' endP h
    unfold skipToEndOfLineComment at h
    cases hrr : readRune data pos with
    | eofR => rw [hrr] at h; simp at h
    | errR o b => rw [hrr] at h; simp at h
    | okR c sz =>
      rw [hrr] at h
      dsimp only at h
      have hd := readRune_okR data pos c sz hrr
      by_cases hc10 : c = 10
      · rw [if_pos hc10] at h; simp at h
      · rw [if_neg hc10] at h
        by_cases hc0 : c = 0
        · rw [if_pos hc0] at h
          simp only [Prod.mk.injEq] at h
          obtain ⟨-, h2, -⟩ := h
          obtain ⟨hsz1, hb⟩ := decodeRune_small data pos c sz hd (by omega)
          rw [← h2, hsz1]
          simpa [hc0] using hb
        · rw [if_neg hc0] at h
          exact ih (pos + sz) fi fi' endP h

/-- When `skipToEndOfBlockComment` reports success, the last two consumed
bytes are `*` and `/`. -/
theorem skipToEndOfBlockComment_ends (data : List Nat) :
    ∀ (fuel pos : Nat) (fi fi' : FileInfo) (endP : Nat) (hE : Bool),
      skipToEndOfBlockComment data pos fi fuel = (fi', endP, true, hE) →
      data.get? (endP - 2) = some 42 ∧ data.get? (endP - 1) = some 47 := by
  intro fuel
  induction fuel with
  | zero => intro pos fi fi' endP hE h; simp [skipToEndOfBlockComment] at h
  | succ fuel ih =>
    intro pos fi fi' endP hE h
    unfold skipToEndOfBlockComment at h
    cases hrr : readRune data pos with
    | eofR => rw [hrr] at h; simp at h
    | errR o b => rw [hrr] at h; simp at h
    | okR c sz =>
      rw [hrr] at h
      dsimp only at h
      have hd := readRune_okR data pos c sz hrr
      by_cases hc0 : c = 0
      · rw [if_pos hc0] at h; simp at h
      · rw [if_neg hc0] at h
        by_cases hc42 : c = 42
        · rw [if_pos hc42] at h
          cases hrr2 : readRune data (pos + sz) with
          | eofR => rw [hrr2] at h; simp at h
          | errR o b => rw [hrr2] at h; simp at h
          | okR c2 sz2 =>
            rw [hrr2] at h
            dsimp only at h
            have hd2 := readRune_okR data (pos + sz) c2 sz2 hrr2
            by_cases hc47 : c2 = 47
            · rw [if_pos hc47] at h
              simp only [Prod.mk.injEq] at h
              obtain ⟨-, h2, -⟩ := h
              obtain ⟨hsz1, hb1⟩ := decodeRune_small data pos c sz hd (by omega)
              obtain ⟨hsz2, hb2⟩ :=
                decodeRune_small data (pos + sz) c2 sz2 hd2 (by omega)
              rw [← h2, hsz1, hsz2]
              constructor
              · simpa [hc42] using hb1
              · rw [hsz1] at hb2
                simpa [hc47] using hb2
            · rw [if_neg hc47] at h
              exact ih (pos + sz) _ fi' endP hE h
        · rw [if_neg hc42] at h
          exact ih (pos + sz) _ fi' endP hE h

/-- When `skipToEndOfBlockComment` reports an error, the rune it stopped on
was the NUL codepoint. -/
theorem skipToEndOfBlockComment_err (data : List Nat) :
    ∀ (fuel pos : Nat) (fi fi' : FileInfo) (endP : Nat) (ok : Bool),
      skipToEndOfBlockComment data pos fi fuel = (fi', endP, ok, true) →
      data.get? (endP - 1) = some 0 := by
  intro fuel
  induction fuel with
  | zero => intro pos fi fi' endP ok h; simp [skipToEndOfBlockComment] at h
  | succ fuel ih =>
    intro pos fi fi' endP ok h
    unfold skipToEndOfBlockComment at h
    cases hrr : readRune data pos with
    | eofR => rw [hrr] at h; simp at h
    | errR o b => rw [hrr] at h; simp at h
    | okR c sz =>
      rw [hrr] at h
      dsimp only at h
      have hd := readRune_okR data pos c sz hrr
      by_cases hc0 : c = 0
      · rw [if_pos hc0] at h
        simp only [Prod.mk.injEq] at h
        obtain ⟨-, h2, -⟩ := h
        obtain ⟨hsz1, hb⟩ := decodeRune_small data pos c sz hd (by omega)
        rw [← h2, hsz1]
        simpa [hc0] using hb
      · rw [if_neg hc0] at h
        by_cases hc42 : c = 42
        · rw [if_pos hc42] at h
          cases hrr2 : readRune data (pos + sz) with
          | eofR => rw [hrr2] at h; simp at h
          | errR o b => rw [hrr2] at h; simp at h
          | okR c2 sz2 =>
            rw [hrr2] at h
            dsimp only at h
            by_cases hc47 : c2 = 47
            · rw [if_pos hc47] at h; simp at h
            · rw [if_neg hc47] at h
              exact ih (pos + sz) _ fi' endP ok h
        · rw [if_neg hc42] at h
          exact ih (pos + sz) _ fi' endP ok h

/-- A `/` followed by a rune other than `/` or `*` falls through the comment
lookahead and is rejected as an invalid character (`/` is not in the
punctuation set). -/
theorem lexLoop_slash_other (st : LexCore) (fuel sz c2 sz2 : Nat)
    (h1 : readRune st.data st.pos = .okR 47 sz)
    (h2 : readRune st.data (st.pos + sz) = .okR c2 sz2)
    (hc47 : c2 ≠ 47) (hc42 : c2 ≠ 42) :
    (lexLoop st (fuel + 1)).2 = .errTok .invalidChar := by
  unfold lexLoop
  simp [h1, h2, lexPunct, punctBytes, hc47, hc42]

/-- A `/` at the very end of the input is emitted as the rune token `/`. -/
theorem lexLoop_slash_eof (st : LexCore) (fuel sz : Nat)
    (h1 : readRune st.data st.pos = .okR 47 sz)
    (h2 : readRune st.data (st.pos + sz) = .eofR) :
    (lexLoop st (fuel + 1)).2 =
      .tok (.runeCode 47) ⟨st.info.tokens.length, .runeV 47⟩ := by
  unfold lexLoop
  simp [h1, h2, emitT, FileInfo.addToken]

/-- A top-level control character (below 32 and not whitespace, or 127) is
rejected with the invalid-control-character error. -/
theorem lexLoop_control (st : LexCore) (fuel c sz : Nat)
    (h1 : readRune st.data st.pos = .okR c sz)
    (hctl : c < 32 ∨ c = 127)
    (h9 : c ≠ 9) (h10 : c ≠ 10) (h11 : c ≠ 11) (h12 : c ≠ 12) (h13 : c ≠ 13) :
    (lexLoop st (fuel + 1)).2 = .errTok .invalidControlChar := by
  rcases hctl with hc | hc
  · interval_cases c <;>
      first
        | exact absurd rfl h9
        | exact absurd rfl h10
        | exact absurd rfl h11
        | exact absurd rfl h12
        | exact absurd rfl h13
        | (unfold lexLoop; simp [h1, lexPunct, punctBytes])
  · subst hc
    unfold lexLoop
    simp [h1, lexPunct, punctBytes]

/-- Claim C5, counterexample.  On input `//a<newline>b`, the line-comment
token is `(0, 4)`: its byte span includes the newline at offset 3, contrary
to the claim that the newline is not part of the comment token's span.  And
`/` followed by another rune (input `x/y`) yields an invalid-character
error, not the rune token `/`. -/
theorem C5_comment_counterexample :
    (runLex (strBytes "//a\nb")).1.info.tokens = [(0, 4), (4, 1), (5, 0)] ∧
    (strBytes "//a\nb").get? 3 = some 10 ∧
    (runLex (strBytes "x/y")).2 =
      [LexResult.tok .nameTok ⟨0, .identV "x"⟩, .errTok .invalidChar,
       LexResult.tok .nameTok ⟨1, .identV "y"⟩, .eofTok ⟨2, .runeV 0⟩] := by
  refine ⟨by decide, by decide, by decide⟩

/-- Claim C5 as amended.  A line comment extends up to and including the
next newline (or to end of input, or to an invalid-UTF-8 boundary), and the
newline is part of the comment token's byte span; a block comment's
consumed span ends with `*/`, and reaching end of input first is the
unterminated-block-comment error; a `/` followed by any other rune is an
invalid-character error, and only a `/` at end of input is emitted as the
rune token `/`. -/
theorem C5_comment_scanning :
    (∀ (data : List Nat) (fuel pos : Nat) (fi fi' : FileInfo) (endP : Nat),
      skipToEndOfLineComment data pos fi fuel = (fi', endP, false) →
      data.length - pos < fuel →
      endP = data.length ∨ data.get? (endP - 1) = some 10 ∨
        decodeRune data endP = none) ∧
    (∀ (data : List Nat) (fuel pos : Nat) (fi fi' : FileInfo) (endP : Nat)
        (hE : Bool),
      skipToEndOfBlockComment data pos fi fuel = (fi', endP, true, hE) →
      data.get? (endP - 2) = some 42 ∧ data.get? (endP - 1) = some 47) ∧
    (runLex (strBytes "/* a")).2 =
      [LexResult.errTok .blockCommentEof, LexResult.eofTok ⟨0, .runeV 0⟩] ∧
    lexErrMsg .blockCommentEof = "block comment never terminates, unexpected EOF" ∧
    (∀ (st : LexCore) (fuel sz c2 sz2 : Nat),
      readRune st.data st.pos = .okR 47 sz →
      readRune st.data (st.pos + sz) = .okR c2 sz2 → c2 ≠ 47 → c2 ≠ 42 →
      (lexLoop st (fuel + 1)).2 = .errTok .invalidChar) ∧
    (∀ (st : LexCore) (fuel sz : Nat),
      readRune st.data st.pos = .okR 47 sz →
      readRune st.data (st.pos + sz) = .eofR →
      (lexLoop st (fuel + 1)).2 =
        .tok (.runeCode 47) ⟨st.info.tokens.length, .runeV 47⟩) ∧
    (runLex (strBytes "//a\nb")).1.info.tokens = [(0, 4), (4, 1), (5, 0)] :=
  ⟨fun data fuel pos fi fi' endP => skipToEndOfLineComment_ends data fuel pos fi fi' endP,
   fun data fuel pos fi fi' endP hE => skipToEndOfBlockComment_ends data fuel pos fi fi' endP hE,
   by decide, rfl,
   fun st fuel sz c2 sz2 => lexLoop_slash_other st fuel sz c2 sz2,
   fun st fuel sz => lexLoop_slash_eof st fuel sz,
   by decide⟩

/-- Witness for C5 at concrete inputs: a one-newline input ends the line
comment; a block comment's span ends with `*/`; `/,` is an invalid
character; a lone `/` is the rune `/`. -/
theorem C5_comment_scanning_witness :
    ((1 : Nat) = ([10] : List Nat).length ∨ ([10] : List Nat).get? 0 = some 10 ∨
      decodeRune [10] 1 = none) ∧
    (([42, 47] : List Nat).get? 0 = some 42 ∧ ([42, 47] : List Nat).get? 1 = some 47) ∧
    (lexLoop (initLex [47, 44]) 3).2 = .errTok .invalidChar ∧
    (lexLoop (initLex [47]) 2).2 = .tok (.runeCode 47) ⟨0, .runeV 47⟩ :=
  ⟨C5_comment_scanning.1 [10] 2 0 FileInfo.init (FileInfo.init.addLine 1) 1
     (by decide) (by decide),
   C5_comment_scanning.2.1 [42, 47] 1 0 FileInfo.init FileInfo.init 2 false
     (by decide),
   C5_comment_scanning.2.2.2.2.1 (initLex [47, 44]) 2 1 44 1
     (by decide) (by decide) (by decide) (by decide),
   C5_comment_scanning.2.2.2.2.2.1 (initLex [47]) 1 1 (by decide) (by decide)⟩

/-- Claim C9.  Inside a line or block comment body, only the NUL codepoint
triggers the invalid-control-character error (any reported error stopped on
a NUL byte); other control characters such as 0x01 and 0x7F are accepted as
comment content and lexing continues, although at the top level a control
character is an error. -/
theorem C9_comment_control_chars :
    (∀ (data : List Nat) (fuel pos : Nat) (fi fi' : FileInfo) (endP : Nat),
      skipToEndOfLineComment data pos fi fuel = (fi', endP, true) →
      data.get? (endP - 1) = some 0) ∧
    (∀ (data : List Nat) (fuel pos : Nat) (fi fi' : FileInfo) (endP : Nat)
        (ok : Bool),
      skipToEndOfBlockComment data pos fi fuel = (fi', endP, ok, true) →
      data.get? (endP - 1) = some 0) ∧
    (∀ (st : LexCore) (fuel c sz : Nat),
      readRune st.data st.pos = .okR c sz → (c < 32 ∨ c = 127) →
      c ≠ 9 → c ≠ 10 → c ≠ 11 → c ≠ 12 → c ≠ 13 →
      (lexLoop st (fuel + 1)).2 = .errTok .invalidControlChar) ∧
    (runLex (strBytes "//\x01\x7F\nx")).2 =
      [LexResult.tok .nameTok ⟨1, .identV "x"⟩, LexResult.eofTok ⟨2, .runeV 0⟩] ∧
    (runLex (strBytes "//\x01\x7F\nx")).1.info.commentAtt = [(0, 1)] ∧
    (runLex (strBytes "/*\x01\x7F*/x")).2 =
      [LexResult.tok .nameTok ⟨1, .identV "x"⟩, LexResult.eofTok ⟨2, .runeV 0⟩] :=
  ⟨fun data fuel pos fi fi' endP => skipToEndOfLineComment_err data fuel pos fi fi' endP,
   fun data fuel pos fi fi' endP ok => skipToEndOfBlockComment_err data fuel pos fi fi' endP ok,
   fun st fuel c sz => lexLoop_control st fuel c sz,
   by decide, by decide, by decide⟩

/-- Witness for C9 at concrete inputs: a NUL inside a line comment and a
block comment is the error byte, and byte 0x01 at the top level is an
invalid control character. -/
theorem C9_comment_control_chars_witness :
    ([47, 47, 0] : List Nat).get? 2 = some 0 ∧
    ([47, 42, 0] : List Nat).get? 2 = some 0 ∧
    (lexLoop (initLex [1]) 2).2 = .errTok .invalidControlChar :=
  ⟨C9_comment_control_chars.1 [47, 47, 0] 2 2 FileInfo.init FileInfo.init 3
     (by decide),
   C9_comment_control_chars.2.1 [47, 42, 0] 2 2 FileInfo.init FileInfo.init 3
     false (by decide),
   C9_comment_control_chars.2.2.1 (initLex [1]) 1 1 1 (by decide)
     (Or.inl (by decide)) (by decide) (by decide) (by decide) (by decide)
     (by decide)⟩

/-! ## Claims C6 and C10: float overflow and underflow -/

/-- Dropping the length of `takeWhile` is `dropWhile`. -/
theorem drop_takeWhile_length (p : Nat → Bool) (l : List Nat) :
    l.drop (l.takeWhile p).length = l.dropWhile p := by
  induction l with
  | nil => rfl
  | cons a t ih =>
    by_cases hp : p a <;> simp [List.takeWhile_cons, List.dropWhile_cons, hp, ih]

/-- Splitting membership at the `takeWhile`/`dropWhile` boundary. -/
theorem mem_takeWhile_or_dropWhile (p : Nat → Bool) (l : List Nat) (x : Nat)
    (h : x ∈ l) : x ∈ l.takeWhile p ∨ x ∈ l.dropWhile p := by
  rw [← List.takeWhile_append_dropWhile p l] at h
  exact List.mem_append.mp h

/-- When the exponent-digit check passes, the whole tail is digits. -/
theorem expTail_all_digits (s2 : List Nat)
    (hcond : ¬(decide ((s2.takeWhile isDigitB).length = 0) ||
      decide (s2.drop (s2.takeWhile isDigitB).length ≠ [])) = true) :
    ∀ x ∈ s2, isDigitB x = true := by
  simp only [Bool.or_eq_true, decide_eq_true_eq] at hcond
  push_neg at hcond
  obtain ⟨-, hdrop⟩ := hcond
  intro x hx
  rcases mem_takeWhile_or_dropWhile isDigitB s2 x hx with hm | hm
  · exact List.mem_takeWhile_imp hm
  · rw [drop_takeWhile_length] at hdrop
    rw [hdrop] at hm
    simp at hm

/-- Characters of a successfully parsed exponent part: a sign or a digit. -/
theorem parseDecExp_mem (r3 : List Nat) (ex : Int) (h : parseDecExp r3 = some ex) :
    ∀ x ∈ r3, x = 43 ∨ x = 45 ∨ isDigitB x = true := by
  unfold parseDecExp at h
  rcases r3 with _ | ⟨c, rest⟩
  · simp
  · dsimp only at h
    by_cases hc43 : c = 43
    · rw [if_pos hc43] at h
      dsimp only at h
      split_ifs at h with hcond
      intro x hx
      rcases List.mem_cons.mp hx with rfl | hx'
      · exact Or.inl hc43
      · exact Or.inr (Or.inr (expTail_all_digits rest hcond x hx'))
    · rw [if_neg hc43] at h
      by_cases hc45 : c = 45
      · rw [if_pos hc45] at h
        dsimp only at h
        split_ifs at h with hcond
        intro x hx
        rcases List.mem_cons.mp hx with rfl | hx'
        · exact Or.inr (Or.inl hc45)
        · exact Or.inr (Or.inr (expTail_all_digits rest hcond x hx'))
      · rw [if_neg hc45] at h
        dsimp only at h
        split_ifs at h with hcond
        intro x hx
        exact Or.inr (Or.inr (expTail_all_digits (c :: rest) hcond x hx))

/-- Characters of a successfully parsed unsigned decimal lexeme: digits,
the dot, an exponent marker, or an exponent sign. -/
theorem parseDecCore_mem (neg : Bool) (s1 : List Nat) (v : Bool × Nat × Int)
    (h : parseDecCore neg s1 = some v) :
    ∀ x ∈ s1, isDigitB x = true ∨ x = 46 ∨ x = 101 ∨ x = 69 ∨ x = 43 ∨ x = 45 := by
  unfold parseDecCore at h
  dsimp only at h
  intro x hx
  rcases mem_takeWhile_or_dropWhile isDigitB s1 x hx with hm | hm
  · exact Or.inl (List.mem_takeWhile_imp hm)
  · rw [← drop_takeWhile_length isDigitB s1] at hm
    rcases hr1 : s1.drop (s1.takeWhile isDigitB).length with _ | ⟨c, r⟩
    · rw [hr1] at hm
      simp at hm
    · rw [hr1] at hm h
      dsimp only at h
      by_cases hc46 : c = 46
      · rw [if_pos hc46] at h
        dsimp only at h
        split_ifs at h with hlen
        rcases List.mem_cons.mp hm with rfl | hx'
        · exact Or.inr (Or.inl hc46)
        · rcases mem_takeWhile_or_dropWhile isDigitB r x hx' with hm2 | hm2
          · exact Or.inl (List.mem_takeWhile_imp hm2)
          · rw [← drop_takeWhile_length isDigitB r] at hm2
            rcases hr2 : r.drop (r.takeWhile isDigitB).length with _ | ⟨e, r3⟩
            · rw [hr2] at hm2
              simp at hm2
            · rw [hr2] at hm2 h
              dsimp only at h
              by_cases he : (decide (e = 101) || decide (e = 69)) = true
              · rw [if_pos he] at h
                simp only [Bool.or_eq_true, decide_eq_true_eq] at he
                rcases List.mem_cons.mp hm2 with rfl | hx3
                · rcases he with rfl | rfl
                  · exact Or.inr (Or.inr (Or.inl rfl))
                  · exact Or.inr (Or.inr (Or.inr (Or.inl rfl)))
                · cases hex : parseDecExp r3 with
                  | none => rw [hex] at h; simp at h
                  | some ex =>
                    rcases parseDecExp_mem r3 ex hex x hx3 with h43 | h45 | hd
                    · exact Or.inr (Or.inr (Or.inr (Or.inr (Or.inl h43))))
                    · exact Or.inr (Or.inr (Or.inr (Or.inr (Or.inr h45))))
                    · exact Or.inl hd
              · rw [if_neg he] at h
                simp at h
      · rw [if_neg hc46] at h
        dsimp only at h
        split_ifs at h with hlen he
        simp only [Bool.or_eq_true, decide_eq_true_eq] at he
        rcases List.mem_cons.mp hm with rfl | hx3
        · rcases he with rfl | rfl
          · exact Or.inr (Or.inr (Or.inl rfl))
          · exact Or.inr (Or.inr (Or.inr (Or.inl rfl)))
        · cases hex : parseDecExp r with
          | none => rw [hex] at h; simp at h
          | some ex =>
            rcases parseDecExp_mem r ex hex x hx3 with h43 | h45 | hd
            · exact Or.inr (Or.inr (Or.inr (Or.inr (Or.inl h43))))
            · exact Or.inr (Or.inr (Or.inr (Or.inr (Or.inr h45))))
            · exact Or.inl hd

/-- A successfully parsed decimal lexeme contains no underscore. -/
theorem parseDecLexeme_no_underscore (s : List Nat) (v : Bool × Nat × Int)
    (h : parseDecLexeme s = some v) : s.contains 95 = false := by
  have hmem : ∀ x ∈ s, x ≠ 95 := by
    unfold parseDecLexeme at h
    rcases s with _ | ⟨c, rest⟩
    · simp
    · dsimp only at h
      intro x hx
      have hcore : ∀ (n : Bool) (ds : List Nat), parseDecCore n ds = some v →
          ∀ y ∈ ds, y ≠ 95 := by
        intro n ds hds y hy
        rcases parseDecCore_mem n ds v hds y hy with hd | h46 | h101 | h69 | h43 | h45 <;>
          first
            | omega
            | (simp only [isDigitB, Bool.and_eq_true, decide_eq_true_eq] at hd; omega)
      by_cases hc43 : c = 43
      · rw [if_pos hc43] at h
        rcases List.mem_cons.mp hx with rfl | hx'
        · omega
        · exact hcore false rest h x hx'
      · rw [if_neg hc43] at h
        by_cases hc45 : c = 45
        · rw [if_pos hc45] at h
          rcases List.mem_cons.mp hx with rfl | hx'
          · omega
          · exact hcore true rest h x hx'
        · rw [if_neg hc45] at h
          exact hcore false (c :: rest) h x hx
  cases hcon : s.contains 95 with
  | false => rfl
  | true =>
    exfalso
    have h95 : (95 : Nat) ∈ s := by simpa using hcon
    exact hmem 95 h95 rfl

/-- A special float value (`inf`, `infinity`, `nan`) is never a decimal
lexeme: its first character is a letter, so the decimal analysis fails. -/
theorem specialCore_not_dec (neg : Bool) (s1 : List Nat) (f : GoFloat)
    (h : goParseFloatSpecialCore neg s1 = some f) :
    ∀ n : Bool, parseDecCore n s1 = none := by
  have hhead : ∃ a t, s1 = a :: t ∧ isDigitB a = false ∧ a ≠ 46 := by
    unfold goParseFloatSpecialCore at h
    dsimp only at h
    split_ifs at h with h1 h2
    · simp only [Bool.or_eq_true, decide_eq_true_eq] at h1
      rcases h1 with h1 | h1 <;>
        (rcases s1 with _ | ⟨a, t⟩
         · simp at h1
         · simp only [List.map_cons, List.cons.injEq] at h1
           obtain ⟨ha, -⟩ := h1
           refine ⟨a, t, rfl, ?_, ?_⟩
           · unfold lowerByte at ha
             split_ifs at ha <;> simp only [isDigitB, Bool.and_eq_true,
               decide_eq_true_eq, Bool.and_eq_false_iff] <;> simp <;> omega
           · unfold lowerByte at ha
             split_ifs at ha <;> omega)
    · simp only [decide_eq_true_eq] at h2
      rcases s1 with _ | ⟨a, t⟩
      · simp at h2
      · simp only [List.map_cons, List.cons.injEq] at h2
        obtain ⟨ha, -⟩ := h2
        refine ⟨a, t, rfl, ?_, ?_⟩
        · unfold lowerByte at ha
          split_ifs at ha <;> simp only [isDigitB, Bool.and_eq_true,
            decide_eq_true_eq, Bool.and_eq_false_iff] <;> simp <;> omega
        · unfold lowerByte at ha
          split_ifs at ha <;> omega
  obtain ⟨a, t, rfl, hd, h46⟩ := hhead
  intro n
  unfold parseDecCore
  have hip : (a :: t).takeWhile isDigitB = [] := by
    simp [List.takeWhile_cons, hd]
  rw [hip]
  simp [h46]

/-- A decimal lexeme is never one of the special float values. -/
theorem parseDecLexeme_special_none (s : List Nat) (v : Bool × Nat × Int)
    (h : parseDecLexeme s = some v) : goParseFloatSpecial s = none := by
  cases hsp : goParseFloatSpecial s with
  | none => rfl
  | some f =>
    exfalso
    unfold goParseFloatSpecial at hsp
    unfold parseDecLexeme at h
    rcases s with _ | ⟨c, rest⟩
    · simp at h
    · dsimp only at h hsp
      by_cases hc43 : c = 43
      · rw [if_pos hc43] at h hsp
        rw [specialCore_not_dec false rest f hsp false] at h
        simp at h
      · rw [if_neg hc43] at h hsp
        by_cases hc45 : c = 45
        · rw [if_pos hc45] at h hsp
          rw [specialCore_not_dec true rest f hsp true] at h
          simp at h
        · rw [if_neg hc45] at h hsp
          rw [specialCore_not_dec false (c :: rest) f hsp false] at h
          simp at h

/-- A range error from `ParseFloat` presupposes a well-formed decimal
lexeme. -/
theorem goParseFloat_range_dec (s : List Nat) (f : GoFloat)
    (h : goParseFloat s = (f, some .errRange)) :
    ∃ v, parseDecLexeme s = some v := by
  unfold goParseFloat at h
  cases hsp : goParseFloatSpecial s with
  | some g => rw [hsp] at h; simp at h
  | none =>
    rw [hsp] at h
    cases hdec : parseDecLexeme s with
    | none => rw [hdec] at h; simp at h
    | some v => exact ⟨v, rfl⟩

/-- Claim C6.  For every decimal floating-point lexeme whose exact value
reaches the binary64 overflow boundary (for example `1e9999`), the lexer's
`parseFloat` succeeds without error and yields positive infinity
(the range error from `ParseFloat` is deliberately forgiven), and lexing
`1e9999` emits a float literal equal to positive infinity. -/
theorem C6_float_overflow :
    (∀ (token : List Nat) (mant : Nat) (exp : Int),
      parseDecLexeme token = some (false, mant, exp) →
      float64Overflow mant exp = true →
      goParseFloat token = (.inf false, some .errRange) ∧
      parseFloat token = .ok (.inf false)) ∧
    (runLex (strBytes "1e9999")).2 =
      [LexResult.tok .floatLit ⟨0, .floatV (.inf false)⟩,
       LexResult.eofTok ⟨1, .runeV 0⟩] := by
  constructor
  · intro token mant exp hdec hover
    have hsp := parseDecLexeme_special_none token _ hdec
    have hgo : goParseFloat token = (.inf false, some .errRange) := by
      unfold goParseFloat
      rw [hsp, hdec]
      dsimp only
      rw [if_pos hover]
    refine ⟨hgo, ?_⟩
    have hc := parseDecLexeme_no_underscore token _ hdec
    unfold parseFloat
    rw [if_neg (by rw [hc]; simp), hgo]
    dsimp only
    rw [if_pos rfl]
  · decide

/-- Witness for C6 at the lexeme `1e9999`. -/
theorem C6_float_overflow_witness :
    goParseFloat (strBytes "1e9999") = (.inf false, some .errRange) ∧
    parseFloat (strBytes "1e9999") = .ok (.inf false) :=
  C6_float_overflow.1 (strBytes "1e9999") 1 9999 (by decide) (by decide)

/-- Claim C10, counterexample.  On the lexeme `1e-9999` Go's `ParseFloat`
does not report a range error at all: complete decimal underflow returns
zero with no error, so the lexer's `parseFloat` succeeds and lexing
`1e-9999` emits a float literal token of value zero instead of the claimed
`value out of range for float` error. -/
theorem C10_underflow_counterexample :
    goParseFloat (strBytes "1e-9999") = (.finite false 0 0, none) ∧
    parseFloat (strBytes "1e-9999") = .ok (.finite false 0 0) ∧
    (runLex (strBytes "1e-9999")).2 =
      [LexResult.tok .floatLit ⟨0, .floatV (.finite false 0 0)⟩,
       LexResult.eofTok ⟨1, .runeV 0⟩] ∧
    (runLex (strBytes "1e-9999")).2 ≠
      [LexResult.errTok (.numE .errRange "float" (strBytes "1e-9999")),
       LexResult.eofTok ⟨0, .runeV 0⟩] :=
  ⟨by decide, by rfl, by decide, by decide⟩

/-- Claim C10 as amended.  A decimal lexeme that underflows to zero parses
as the float zero with no error (so lexing `1e-9999` emits a float literal
of value zero); a range error from `ParseFloat` always carries an infinity,
so for the sign-free decimal lexemes the lexer produces the result of a
range error is `+Inf`, the one case `parseFloat` forgives, and the
`value out of range for float` rendering of a range error is unreachable
for such lexemes. -/
theorem C10_float_underflow :
    (∀ (token : List Nat) (mant : Nat) (exp : Int),
      parseDecLexeme token = some (false, mant, exp) →
      float64Overflow mant exp = false →
      float64Underflow mant exp = true →
      goParseFloat token = (.finite false 0 0, none) ∧
      parseFloat token = .ok (.finite false 0 0)) ∧
    (∀ (token : List Nat) (f : GoFloat),
      goParseFloat token = (f, some .errRange) → ∃ neg, f = .inf neg) ∧
    (∀ (token : List Nat) (mant : Nat) (exp : Int),
      parseDecLexeme token = some (false, mant, exp) →
      parseFloat token ≠ .error .errRange) ∧
    (runLex (strBytes "1e-9999")).2 =
      [LexResult.tok .floatLit ⟨0, .floatV (.finite false 0 0)⟩,
       LexResult.eofTok ⟨1, .runeV 0⟩] := by
  refine ⟨?_, ?_, ?_, by decide⟩
  · intro token mant exp hdec hov hun
    have hsp := parseDecLexeme_special_none token _ hdec
    have hc := parseDecLexeme_no_underscore token _ hdec
    have hgo : goParseFloat token = (.finite false 0 0, none) := by
      unfold goParseFloat
      rw [hsp, hdec]
      dsimp only
      rw [if_neg (by rw [hov]; simp), if_pos hun]
    refine ⟨hgo, ?_⟩
    unfold parseFloat
    rw [if_neg (by rw [hc]; simp), hgo]
  · intro token f hgo
    unfold goParseFloat at hgo
    cases hsp : goParseFloatSpecial token with
    | some g => rw [hsp] at hgo; simp at hgo
    | none =>
      rw [hsp] at hgo
      cases hdec : parseDecLexeme token with
      | none => rw [hdec] at hgo; simp at hgo
      | some v =>
        obtain ⟨neg, mant, exp⟩ := v
        rw [hdec] at hgo
        dsimp only at hgo
        by_cases hov : float64Overflow mant exp = true
        · rw [if_pos hov] at hgo
          simp only [Prod.mk.injEq] at hgo
          exact ⟨neg, hgo.1.symm⟩
        · rw [if_neg hov] at hgo
          by_cases hun : float64Underflow mant exp = true
          · rw [if_pos hun] at hgo; simp at hgo
          · rw [if_neg hun] at hgo; simp at hgo
  · intro token mant exp hdec
    have hsp := parseDecLexeme_special_none token _ hdec
    have hc := parseDecLexeme_no_underscore token _ hdec
    by_cases hov : float64Overflow mant exp = true
    · have hgo : goParseFloat token = (.inf false, some .errRange) := by
        unfold goParseFloat
        rw [hsp, hdec]
        dsimp only
        rw [if_pos hov]
      unfold parseFloat
      rw [if_neg (by rw [hc]; simp), hgo]
      dsimp only
      rw [if_pos rfl]
      simp
    · by_cases hun : float64Underflow mant exp = true
      · have hgo : goParseFloat token = (.finite false 0 0, none) := by
          unfold goParseFloat
          rw [hsp, hdec]
          dsimp only
          rw [if_neg hov, if_pos hun]
        unfold parseFloat
        rw [if_neg (by rw [hc]; simp), hgo]
        simp
      · have hgo : goParseFloat token = (.finite false mant exp, none) := by
          unfold goParseFloat
          rw [hsp, hdec]
          dsimp only
          rw [if_neg hov, if_neg hun]
        unfold parseFloat
        rw [if_neg (by rw [hc]; simp), hgo]
        simp

/-- Witness for C10 at the lexeme `1e-9999`. -/
theorem C10_float_underflow_witness :
    goParseFloat (strBytes "1e-9999") = (.finite false 0 0, none) ∧
    parseFloat (strBytes "1e-9999") = .ok (.finite false 0 0) :=
  C10_float_underflow.1 (strBytes "1e-9999") 1 (-9999) (by decide) (by decide)
    (by decide)

/-! ## Claim C8: every collected comment is attached exactly once -/

/-- `splitComments` partitions the pending comments: trailing part followed
by leading part is exactly the pending list. -/
theorem splitComments_partition (data : List Nat) (fi : FileInfo)
    (prevSym : Option Terminal) (n : Terminal) (comments : List Nat) :
    (splitComments data fi prevSym n comments).1 ++
      (splitComments data fi prevSym n comments).2 = comments := by
  unfold splitComments
  cases prevSym with
  | none => simp
  | some p =>
    cases comments with
    | nil => simp
    | cons c cs =>
      dsimp only
      split_ifs <;> simp [List.take_append_drop]

/-- Attaching a list of comments appends exactly one attachment pair per
comment. -/
theorem foldl_addComment_att (l : List Nat) (fi : FileInfo) (o : Nat) :
    (l.foldl (fun fi c => fi.addComment c o) fi).commentAtt =
      fi.commentAtt ++ l.map (fun c => (c, o)) := by
  induction l generalizing fi with
  | nil => simp
  | cons c cs ih =>
    rw [List.foldl_cons, ih]
    simp [FileInfo.addComment]

/-- `setPrevAndAddComments` attaches each pending comment exactly once: the
comment components appended to the attachment list are exactly the pending
list, in order. -/
theorem setPrevAndAddComments_att (st : LexCore) (n : Terminal) :
    (setPrevAndAddComments st n).info.commentAtt.map Prod.fst =
      st.info.commentAtt.map Prod.fst ++ st.comments := by
  unfold setPrevAndAddComments
  rw [foldl_addComment_att, foldl_addComment_att]
  simp only [List.map_append, List.map_map, List.append_assoc]
  have : ∀ (l : List Nat) (o : Nat), l.map (Prod.fst ∘ fun c => (c, o)) = l := by
    intro l o
    induction l with
    | nil => rfl
    | cons a t ih => simpa using ih
  rw [this, this, splitComments_partition]

/-- Claim C8, counterexample.  On input `// c<newline>$` the comment token 0
is collected (it is in the token table) but a lexical error (`$`) occurs
before the next terminal; the next `Lex` call clears the pending buffer, so
the comment is attached to nothing: the attachment list of the completed
run is empty. -/
theorem C8_comment_dropped_counterexample :
    (runLex (strBytes "// c\n$")).1.info.tokens = [(0, 5), (6, 0)] ∧
    (runLex (strBytes "// c\n$")).1.info.commentAtt = [] ∧
    (runLex (strBytes "// c\n$")).2 =
      [LexResult.errTok .invalidChar, LexResult.eofTok ⟨1, .runeV 0⟩] := by
  refine ⟨by decide, by decide, by decide⟩

/-- Claim C8 as amended.  The attachment step attaches every pending
comment to exactly one terminal (leading or trailing), in order and without
duplication or loss; but each `Lex` call begins by clearing the pending
buffer, so comments still pending when a lexical error return intervenes
before the next terminal are dropped, never attached.  On error-free runs
every collected comment is attached exactly once. -/
theorem C8_comment_attached_once :
    (∀ (st : LexCore) (n : Terminal),
      (setPrevAndAddComments st n).info.commentAtt.map Prod.fst =
        st.info.commentAtt.map Prod.fst ++ st.comments) ∧
    (∀ (st : LexCore) (fuel : Nat),
      lexStep st fuel = lexStep { st with comments := [] } fuel) ∧
    (runLex (strBytes "//a\n//b\nx /*c*/ y")).1.info.commentAtt =
      [(0, 2), (1, 2), (3, 4)] ∧
    (runLex (strBytes "//a\n//b\nx /*c*/ y")).1.info.tokens =
      [(0, 4), (4, 4), (8, 1), (10, 5), (16, 1), (17, 0)] :=
  ⟨setPrevAndAddComments_att, fun _ _ => rfl, by decide, by decide⟩
